import Mathlib

/-!
Verification development for `moldesign/interfaces/pdbfixer_interface.py`.

The module glues an in-memory molecular structure model to an external
structure-repair and solvation toolkit (pdbfixer / OpenMM).  We embed the
module shallowly:

* Python objects (molecules, chains, residues, atoms) live in an explicit
  store indexed by numeric ids; in-place writes of the Python code become
  store updates, so frame properties (what an operation does **not** touch)
  are provable.
* Calls into the external engine are represented by an `Engine` oracle
  (an arbitrary function producing the engine output molecule) together
  with a trace of `Event`s recording each external call in order.
* Fallible Python code returns `Except PyErr`; `assert` failures,
  `ValueError`, `KeyError`, `IndexError` are distinguished constructors.
* Strings are modelled as ASCII character lists (chain names, residue
  codes and mutation strings in this module are ASCII).
-/

namespace Moldesign

/-- Python exception kinds that the module can raise. -/
inductive PyErr where
  | valueError (msg : String)
  | keyError (msg : String)
  | assertionError (msg : String)
  | indexError (msg : String)
  | typeError (msg : String)
deriving DecidableEq

/-- External-engine calls, recorded in order of occurrence. -/
inductive Event where
  /-- Construction of the pdbfixer object from the serialized molecule
  (`mol_to_fixer`, line 76 of the source). -/
  | fixerInit
  /-- One `fixer.applyMutations(mutstrings, chainid)` call (line 92). -/
  | applyMutations (mutstrings : List String) (chainid : String)
  /-- `opm.mol_to_modeller(mol)` (line 277). -/
  | toModeller
  /-- `pdbfixer.PDBFixer._createForceField` (line 280). -/
  | createForceField
  /-- `modeller.addSolvent(...)` (line 282). -/
  | addSolvent (box : ℚ × ℚ × ℚ) (positiveIon negativeIon : String)
      (ionicStrength : ℚ) (neutralize : Bool)
deriving DecidableEq

/-! ### Character and string helpers (ASCII model of the Python built-ins) -/

/-- ASCII decimal digit test; models both `str.isdigit` per character and
the regex class `\d`. -/
def isDigitChar (c : Char) : Bool := '0' ≤ c && c ≤ '9'

/-- Python `s.isdigit()`: non-empty and all characters are digits. -/
def pyIsDigit (l : List Char) : Bool := !l.isEmpty && l.all isDigitChar

/-- Numeric value of one ASCII digit. -/
def digitVal (c : Char) : Nat := c.toNat - '0'.toNat

/-- Python `int(s)` on a string of ASCII digits. -/
def digitsToNat (l : List Char) : Nat :=
  l.foldl (fun acc c => 10 * acc + digitVal c) 0

/-- Decimal digits of a natural number (fuel-based, structurally recursive). -/
def natDigitsAux : Nat → Nat → List Char
  | 0, _ => []
  | fuel + 1, n =>
    if n < 10 then [Char.ofNat (48 + n)]
    else natDigitsAux fuel (n / 10) ++ [Char.ofNat (48 + n % 10)]

/-- Python `str(n)` for naturals. -/
def natToStr (n : Nat) : String := String.mk (natDigitsAux (n + 1) n)

/-- Python `str(i)` for integers (pdbindex rendering in mutation descriptors). -/
def intToStr (i : Int) : String :=
  if i < 0 then "-" ++ natToStr i.natAbs else natToStr i.natAbs

/-- Effective index of Python sequence indexing: negative indices count
from the end. -/
def pyIdx (i : Int) (n : Nat) : Int := if i < 0 then i + n else i

/-- Python string indexing `s[i]` with negative-index wrap-around;
`IndexError` outside the valid range. -/
def pyStringIndex (l : List Char) (i : Int) : Except PyErr Char :=
  if 0 ≤ pyIdx i l.length ∧ pyIdx i l.length < (l.length : Int) then
    .ok (l.getD (pyIdx i l.length).toNat ' ')
  else
    .error (.indexError "string index out of range")

/-- The constant `string.ascii_uppercase`. -/
def asciiUppercase : List Char := "ABCDEFGHIJKLMNOPQRSTUVWXYZ".data

/-- Uppercase letter for a number `v` with `1 ≤ v ≤ 26` (`1 → "A"`, ...). -/
def letterFor (v : Nat) : String := String.mk [asciiUppercase.getD (v - 1) '?']

/-!
### Chain-name normalization (`_pdbfixer_chainnames_to_letter`, lines 143-149)

Per chain name the source runs, under a `try` that swallows
`ValueError`/`TypeError`/`IndexError`:

    if chain.name.isdigit():
        chain.name = string.ascii_uppercase[int(chain.name) - 1]

Note that for the name `"0"` Python computes `ascii_uppercase[-1]`, which is
a *valid* negative index and yields `'Z'`.
-/

/-- Per-name normalization step of `_pdbfixer_chainnames_to_letter`. -/
def chainnameToLetter (s : String) : String :=
  if pyIsDigit s.data then
    match pyStringIndex asciiUppercase (Int.ofNat (digitsToNat s.data) - 1) with
    | .ok c => String.mk [c]
    | .error _ => s
  else s

/-!
### The mutation-string pattern (`MUT_RE`, line 188)

`MUT_RE = re.compile(r'(.*\.)?([^\d]*)(\d+)([^\d]+)')`, used with
`MUT_RE.match(s)`, i.e. anchored at the start of the string only; trailing
unconsumed characters do not make the match fail.  We reproduce the
backtracking semantics directly: the optional greedy group `(.*\.)` tries
the rightmost `'.'` first (its body cannot span a newline, since `.` does
not match `'\n'`), and on total failure the group is skipped; the remaining
groups `([^\d]*)(\d+)([^\d]+)` are then deterministic maximal runs.
-/

/-- Case analysis on an `Option` value, with definitional reduction
lemmas. -/
def optionCase {α β : Type} (o : Option α) (f : β) (g : α → β) : β :=
  match o with
  | none => f
  | some a => g a

@[simp]
theorem optionCase_none {α β : Type} (f : β) (g : α → β) :
    optionCase none f g = f := rfl

@[simp]
theorem optionCase_some {α β : Type} (a : α) (f : β) (g : α → β) :
    optionCase (some a) f g = g a := rfl

/-- Group 2 of a tail match on `l`: the maximal non-digit run. -/
def mtG2 (l : List Char) : List Char := l.takeWhile (fun c => !isDigitChar c)

/-- Remainder of `l` after group 2. -/
def mtR1 (l : List Char) : List Char := l.drop (mtG2 l).length

/-- Group 3: the maximal digit run after group 2. -/
def mtG3 (l : List Char) : List Char := (mtR1 l).takeWhile isDigitChar

/-- Remainder after group 3. -/
def mtR2 (l : List Char) : List Char := (mtR1 l).drop (mtG3 l).length

/-- Group 4: the maximal non-digit run after group 3. -/
def mtG4 (l : List Char) : List Char := (mtR2 l).takeWhile (fun c => !isDigitChar c)

/-- Match `([^\d]*)(\d+)([^\d]+)` against a prefix of `l`, returning the
three groups. -/
def matchTail (l : List Char) : Option (List Char × List Char × List Char) :=
  if (mtG3 l).isEmpty then none
  else if (mtG4 l).isEmpty then none else some (mtG2 l, mtG3 l, mtG4 l)

/-- Candidate end positions for the greedy group `(.*\.)`: indices of `'.'`
whose preceding characters contain no newline, rightmost first. -/
def dotCuts (l : List Char) : List Nat :=
  ((List.range l.length).filter
    (fun i => l.getD i ' ' = '.' && !(l.take i).contains '\n')).reverse

/-- First success of `f` over a list (backtracking order). -/
def firstSome {α β : Type} (f : α → Option β) : List α → Option β
  | [] => none
  | a :: rest => optionCase (f a) (firstSome f rest) (fun b => some b)

/-- The match attempt for the greedy-group candidate ending at dot index
`i`: the rest of the pattern must match from position `i + 1`. -/
def dotCandidate (l : List Char) (i : Nat) :
    Option (Option (List Char) × List Char × List Char × List Char) :=
  (matchTail (l.drop (i + 1))).map
    (fun g => (some (l.take (i + 1)), g.1, g.2.1, g.2.2))

/-- Semantics of `MUT_RE.match`: groups
`(chain-with-dot?, sourcecode, digits, targetcode)` or `none`. -/
def mutReMatch (l : List Char) :
    Option (Option (List Char) × List Char × List Char × List Char) :=
  optionCase (firstSome (dotCandidate l) (dotCuts l))
    ((matchTail l).map (fun g => (none, g.1, g.2.1, g.2.2)))
    (fun r => some r)

/-- Lines 196-198 of the source: `MUT_RE.match(s)` followed by
`raise ValueError("Failed to parse mutation string '%s'" % s)` on failure. -/
def mutReParse (s : String) :
    Except PyErr (Option (List Char) × List Char × List Char × List Char) :=
  optionCase (mutReMatch s.data)
    (.error (.valueError ("Failed to parse mutation string " ++ s)))
    (fun g => .ok g)

/-- Declarative reading of a *prefix* match of
`(.*\.)?([^\d]*)(\d+)([^\d]+)`: some decomposition of the string into the
four groups followed by an arbitrary unconsumed remainder. -/
def prefixGrammar (l : List Char) : Prop :=
  ∃ p n d t rest, l = p ++ n ++ d ++ t ++ rest ∧
    (p = [] ∨ (∃ q, p = q ++ ['.'] ∧ '\n' ∉ q)) ∧
    (∀ c ∈ n, ¬ isDigitChar c) ∧
    d ≠ [] ∧ (∀ c ∈ d, isDigitChar c) ∧
    t ≠ [] ∧ (∀ c ∈ t, ¬ isDigitChar c)

/-- Full-string reading of the claimed grammar
`(chain.)?(sourcecode)?(digits)(targetcode)`: the same four groups but with
nothing left over.  Written from the specification text, to be compared
with the code's prefix-matching behaviour. -/
def fullGrammarCheck (l : List Char) : Bool :=
  (List.range (l.length + 1)).any (fun i =>
    let p := l.take i
    let rest := l.drop i
    (p.isEmpty || (p.getLast? = some '.' && !(p.dropLast.contains '\n'))) &&
    (let n := rest.takeWhile (fun c => !isDigitChar c)
     let r1 := rest.drop n.length
     let d := r1.takeWhile isDigitChar
     let t := r1.drop d.length
     !d.isEmpty && !t.isEmpty && t.all (fun c => !isDigitChar c)))

/-!
### Data model

An explicit store of chains, residues and molecules indexed by numeric ids
models the Python object graph; object identity is id equality, in-place
attribute writes are store updates, and allocation appends to the store.
Atoms are embedded in their owning residue record (an atom is identified
by its residue id together with its name, matching the by-name dictionary
access `residue.atoms[name]` used by the source).
-/

abbrev ResId := Nat
abbrev ChainId := Nat
abbrev MolId := Nat

/-- Reference to an atom: owning residue id and atom name. -/
abbrev AtomRef := ResId × String

/-- One atom: name, element, 3-D position, and its bond graph (adjacency
list mapping neighbour atoms to bond orders, `atom.bond_graph`). -/
structure AtomData where
  aname : String
  element : String
  position : ℚ × ℚ × ℚ
  bondGraph : List (AtomRef × Nat)
deriving DecidableEq

/-- One residue: type name (3-letter), one-letter code, PDB index, residue
name (the key used by `chain.residues[name]`), owning chain and molecule
back-references, names of its backbone atoms, and its atoms. -/
structure ResData where
  resname : String
  code : String
  pdbindex : Int
  rname : String
  chain : ChainId
  mol : Option MolId
  backboneNames : List String
  atoms : List AtomData
deriving DecidableEq

/-- One chain: display name and PDB name. -/
structure ChainData where
  cname : String
  pdbname : String
deriving DecidableEq

/-- Metadata values: strings, lists of strings, or a copied metadata
mapping (used for the `origin` entry). -/
inductive MetaVal where
  | mstr (v : String)
  | mlist (vs : List String)
  | mmap (kvs : List (String × MetaVal))

/-- One molecule: name, owned chains, ordered residues, metadata. -/
structure MolData where
  mname : String
  chains : List ChainId
  residues : List ResId
  metadata : List (String × MetaVal)

/-- The object store. -/
structure Store where
  chainsS : List ChainData
  resS : List ResData
  molsS : List MolData

instance : Inhabited ChainData := ⟨⟨"", ""⟩⟩

instance : Inhabited ResData := ⟨⟨"", "", 0, "", 0, none, [], []⟩⟩

instance : Inhabited MolData := ⟨⟨"", [], [], []⟩⟩

/-- Dereference a chain id. -/
def getChain (st : Store) (c : ChainId) : ChainData := st.chainsS.getD c default

/-- Dereference a residue id. -/
def getRes (st : Store) (r : ResId) : ResData := st.resS.getD r default

/-- Dereference a molecule id. -/
def getMol (st : Store) (m : MolId) : MolData := st.molsS.getD m default

/-- Overwrite a chain record (in-place attribute write). -/
def setChain (st : Store) (c : ChainId) (cd : ChainData) : Store :=
  { st with chainsS := st.chainsS.set c cd }

/-- Overwrite a residue record (in-place attribute write). -/
def setRes (st : Store) (r : ResId) (rd : ResData) : Store :=
  { st with resS := st.resS.set r rd }

/-- `mol.num_residues`. -/
def numResidues (st : Store) (m : MolId) : Nat := (getMol st m).residues.length

/-- `mol.num_atoms`. -/
def numAtoms (st : Store) (m : MolId) : Nat :=
  ((getMol st m).residues.map (fun r => (getRes st r).atoms.length)).sum

/-- All atom positions of a molecule in document order (`mol.positions`). -/
def positionsOf (st : Store) (m : MolId) : List (ℚ × ℚ × ℚ) :=
  ((getMol st m).residues.map (fun r => (getRes st r).atoms.map (·.position))).flatten

/-- Residue-type sequence of a molecule (3-letter names in order). -/
def residueTypeSeq (st : Store) (m : MolId) : List String :=
  (getMol st m).residues.map (fun r => (getRes st r).resname)

/-- Identity-free content of an atom (name, element, position). -/
structure AtomContent where
  aname : String
  element : String
  position : ℚ × ℚ × ℚ
deriving DecidableEq

/-- Identity-free content of a residue: everything except ownership
references and the bond graph. -/
structure ResContent where
  resname : String
  code : String
  pdbindex : Int
  rname : String
  atoms : List AtomContent
deriving DecidableEq

/-- Content projection of an atom. -/
def atomContent (a : AtomData) : AtomContent := ⟨a.aname, a.element, a.position⟩

/-- Content projection of a residue record. -/
def resDataContent (rd : ResData) : ResContent :=
  ⟨rd.resname, rd.code, rd.pdbindex, rd.rname, rd.atoms.map atomContent⟩

/-- Content projection of a residue in a store. -/
def resContent (st : Store) (r : ResId) : ResContent :=
  resDataContent (getRes st r)

/-!
### Residue code tables (`mdt.data`)

Modelled from the spec: the host package's standard amino-acid tables
mapping one-letter codes to 3-letter residue-type names and back
(`mdt.data.RESIDUE_CODE_TO_NAME`, `mdt.data.RESIDUE_ONE_LETTER`); the
tables themselves are not under `src/`.
-/

/-- One-letter code to 3-letter residue name. -/
def RESIDUE_CODE_TO_NAME : List (String × String) :=
  [("A", "ALA"), ("R", "ARG"), ("N", "ASN"), ("D", "ASP"), ("C", "CYS"),
   ("E", "GLU"), ("Q", "GLN"), ("G", "GLY"), ("H", "HIS"), ("I", "ILE"),
   ("L", "LEU"), ("K", "LYS"), ("M", "MET"), ("F", "PHE"), ("P", "PRO"),
   ("S", "SER"), ("T", "THR"), ("W", "TRP"), ("Y", "TYR"), ("V", "VAL")]

/-- 3-letter residue name to one-letter code (inverse table). -/
def RESIDUE_ONE_LETTER : List (String × String) :=
  RESIDUE_CODE_TO_NAME.map (fun p => (p.2, p.1))

/-- Association-list lookup by key (Python `dict` access). -/
def lookupTable (tbl : List (String × String)) (k : String) : Option String :=
  (tbl.find? (fun p => p.1 = k)).map (·.2)

/-!
### External engine oracle and adapter

The external toolkit (pdbfixer / OpenMM) is out of scope; its outputs are
an oracle.  An `EngMol` is the value-level description of the topology and
positions the engine hands back; `topology_to_mol` (the adapter direction
`fromExternal`, `opm.topology_to_mol`) allocates it into the store as a
fresh molecule.  Modelled from the spec: `fromExternal` "constructs a new
native molecule", with "no side effect beyond allocation", preserving the
chain/residue/atom ordering emitted by the tool.
-/

/-- Engine-output atom; bond targets are (residue index inside the output,
atom name) pairs. -/
structure EngAtom where
  aname : String
  element : String
  position : ℚ × ℚ × ℚ
  bonds : List ((Nat × String) × Nat)

/-- Engine-output residue. -/
structure EngRes where
  resname : String
  code : String
  pdbindex : Int
  rname : String
  chainName : String
  backboneNames : List String
  atoms : List EngAtom

/-- Engine-output molecule. -/
structure EngMol where
  residues : List EngRes

/-- Total number of atoms in an engine output. -/
def engNumAtoms (em : EngMol) : Nat := (em.residues.map (fun r => r.atoms.length)).sum

/-- Content projection of an engine-output residue. -/
def engResContent (er : EngRes) : ResContent :=
  ⟨er.resname, er.code, er.pdbindex, er.rname,
   er.atoms.map (fun a => ⟨a.aname, a.element, a.position⟩)⟩

/-- Distinct values in order of first appearance. -/
def distinctFirsts (l : List String) : List String :=
  l.foldl (fun acc n => if n ∈ acc then acc else acc ++ [n]) []

/-- Index of the first occurrence of a value in a list (0 if absent). -/
def idxOfStr (l : List String) (s : String) : Nat :=
  (l.findIdx? (fun x => x = s)).getD 0

/-- Allocate an engine-output molecule into the store
(`opm.topology_to_mol`): fresh chains (grouped by chain name in order of
first appearance), fresh residues with remapped bond targets, and a fresh
molecule record.  `engResToResData` is the per-residue materialization. -/
def engResToResData (cbase rbase mid : Nat) (cnames : List String)
    (er : EngRes) : ResData :=
  { resname := er.resname, code := er.code, pdbindex := er.pdbindex,
    rname := er.rname,
    chain := cbase + idxOfStr cnames er.chainName,
    mol := some mid,
    backboneNames := er.backboneNames,
    atoms := er.atoms.map (fun a =>
      { aname := a.aname, element := a.element, position := a.position,
        bondGraph := a.bonds.map (fun b => ((rbase + b.1.1, b.1.2), b.2)) }) }

/-- Allocation step of `topology_to_mol` (body). -/
def topology_to_mol (st : Store) (em : EngMol) (molName : String) : Store × MolId :=
  let cnames := distinctFirsts (em.residues.map (·.chainName))
  ({ chainsS := st.chainsS ++ cnames.map (fun n => ChainData.mk n n),
     resS := st.resS ++ em.residues.map
       (engResToResData st.chainsS.length st.resS.length st.molsS.length cnames),
     molsS := st.molsS ++
       [{ mname := molName,
          chains := (List.range cnames.length).map (fun i => st.chainsS.length + i),
          residues := (List.range em.residues.length).map (fun i => st.resS.length + i),
          metadata := [] }] }, st.molsS.length)

/-- Call describing one `modeller.addSolvent` invocation. -/
structure SolvCall where
  box : ℚ × ℚ × ℚ
  positiveIon : String
  negativeIon : String
  ionicStrength : ℚ
  neutralize : Bool
deriving DecidableEq

/-- The external engine as an oracle: `mutOut` is the topology produced by
the pdbfixer round-trip after the recorded `applyMutations` calls;
`solvOut` is the topology produced by `modeller.addSolvent`. -/
structure Engine where
  mutOut : Store → MolId → List (List String × String) → EngMol
  solvOut : Store → MolId → SolvCall → EngMol

/-- Store-level `_pdbfixer_chainnames_to_letter(pdbfixermol)`: rewrite the
name of every chain of the molecule with `chainnameToLetter` (the source
writes `chain.name` only; `pdbname` is untouched). -/
def _pdbfixer_chainnames_to_letter (st : Store) (mid : MolId) : Store :=
  (getMol st mid).chains.foldl
    (fun s c => setChain s c { getChain s c with cname := chainnameToLetter (getChain s c).cname })
    st

/-!
### The `mdt.Molecule` constructor

Modelled from the spec: the host package's `mdt.Molecule(components, ...)`
constructor is not under `src/`.  Per the spec, "new Molecule/Residue
objects are constructed fresh for the result and ownership of their
sub-objects (chains, residues, atoms) is exclusive to the new molecule";
bonds between residues that "reference different molecules" are dropped
during construction (source comment, lines 110-112), while bonds among
copied residues of the same source molecule are kept and remapped.
Components may be residues or whole molecules (flattened in order).
-/

/-- A constructor argument: a residue or a whole molecule. -/
inductive Component where
  | res (r : ResId)
  | mol (m : MolId)

/-- Flatten constructor components to the ordered residue-id list. -/
def flattenComps (st : Store) : List Component → List ResId
  | [] => []
  | .res r :: rest => r :: flattenComps st rest
  | .mol m :: rest => (getMol st m).residues ++ flattenComps st rest

/-- Index of the first occurrence of a residue id in a list. -/
def idxOfRes (l : List ResId) (r : ResId) : Option Nat :=
  l.findIdx? (fun x => x = r)

/-- Construct a new molecule from components (`mdt.Molecule(...)`),
allocating fresh chains (grouped by source chain name, order of first
appearance) and fresh copies of every source residue and atom; an atom
bond survives only if its target residue is also copied and belongs to
the same source molecule, and is remapped to the fresh ids. -/
def chainNameOfRes (st : Store) (r : ResId) : String :=
  (getChain st (getRes st r).chain).cname

/-- Per-residue copy performed by the constructor: fresh ownership
references and bond-graph remapping (a bond survives only if its target
residue is also copied and belongs to the same source molecule). -/
def copyResData (st : Store) (rbase cbase mid : Nat) (src : List ResId)
    (cnames : List String) (r : ResId) : ResData :=
  let rd := getRes st r
  { resname := rd.resname, code := rd.code, pdbindex := rd.pdbindex,
    rname := rd.rname,
    chain := cbase + idxOfStr cnames (chainNameOfRes st r),
    mol := some mid,
    backboneNames := rd.backboneNames,
    atoms := rd.atoms.map (fun a =>
      { aname := a.aname, element := a.element, position := a.position,
        bondGraph := a.bondGraph.filterMap (fun b =>
          match idxOfRes src b.1.1 with
          | some p =>
            if (getRes st b.1.1).mol = rd.mol then some ((rbase + p, b.1.2), b.2)
            else none
          | none => none) }) }

def Molecule.new (st : Store) (comps : List Component) (nm : String)
    (md : List (String × MetaVal)) : Store × MolId :=
  let src := flattenComps st comps
  let cnames := distinctFirsts (src.map (chainNameOfRes st))
  ({ chainsS := st.chainsS ++ cnames.map (fun n =>
       ChainData.mk n (getChain st ((src.find? (fun r => chainNameOfRes st r = n)).map
         (fun r => (getRes st r).chain) |>.getD 0)).pdbname),
     resS := st.resS ++ src.map
       (copyResData st st.resS.length st.chainsS.length st.molsS.length src cnames),
     molsS := st.molsS ++
       [{ mname := nm,
          chains := (List.range cnames.length).map (fun i => st.chainsS.length + i),
          residues := (List.range src.length).map (fun i => st.resS.length + i),
          metadata := md }] }, st.molsS.length)

/-!
### Container lookups of the host model

Modelled from the spec where the host data model is involved: chains of a
molecule are indexed by chain name, residues of a chain by residue name,
atoms of a residue by atom name; a missing key raises `KeyError`.
`get_residues(**query)` filters residues by `pdbindex` and, when given, by
one-letter `code` (spec 4.2 Resolution).
-/

/-- Python dictionary-style lookup: `KeyError` when the key is absent. -/
def keyLookup {α : Type} (o : Option α) (msg : String) : Except PyErr α :=
  match o with
  | some a => .ok a
  | none => .error (.keyError msg)

@[simp]
theorem keyLookup_some {α : Type} (a : α) (msg : String) :
    keyLookup (some a) msg = .ok a := rfl

@[simp]
theorem keyLookup_none {α : Type} (msg : String) :
    keyLookup (none : Option α) msg = .error (.keyError msg) := rfl

/-- `mol.chains[name]`: first chain of the molecule with that name. -/
def chainByName (st : Store) (mid : MolId) (cn : String) : Except PyErr ChainId :=
  keyLookup ((getMol st mid).chains.find? (fun c => (getChain st c).cname = cn)) cn

/-- Residues of a molecule belonging to a given chain, in document order. -/
def chainResidues (st : Store) (mid : MolId) (cid : ChainId) : List ResId :=
  (getMol st mid).residues.filter (fun r => (getRes st r).chain = cid)

/-- `residues[name]`: first residue with the given residue name. -/
def residueByName (st : Store) (rs : List ResId) (rn : String) : Except PyErr ResId :=
  keyLookup (rs.find? (fun r => (getRes st r).rname = rn)) rn

/-- `residue.atoms[name]`: the atom with the given name. -/
def atomByName (rd : ResData) (an : String) : Except PyErr AtomData :=
  keyLookup (rd.atoms.find? (fun a => a.aname = an)) an

/-- `parent.get_residues(pdbindex=..., code=...)` over a residue pool. -/
def get_residues (st : Store) (pool : List ResId) (pdbindex : Int)
    (code : Option String) : List ResId :=
  pool.filter (fun r =>
    (getRes st r).pdbindex = pdbindex &&
    (match code with
     | none => true
     | some c => (getRes st r).code = c))

/-!
### Mutation-string resolution (`_mut_strs_to_map`, lines 191-220)
-/

/-- Resolve one mutation string to the matching residues and the target
3-letter residue name (lines 196-214): regex parse, chain lookup when a
chain prefix is present, target-code table lookup (`KeyError` when the
code is unknown), `get_residues` query, `ValueError` when nothing
matches. -/
def resolveStr (st : Store) (mid : MolId) (s : String) :
    Except PyErr (List ResId × String) :=
  match mutReParse s with
  | .error e => .error e
  | .ok (chainid, initialcode, residx, finalcode) =>
    let poolE : Except PyErr (List ResId) :=
      match chainid with
      | some cp =>
        match chainByName st mid (String.mk cp.dropLast) with
        | .error e => .error e
        | .ok cid => .ok (chainResidues st mid cid)
      | none => .ok ((getMol st mid).residues)
    match poolE with
    | .error e => .error e
    | .ok pool =>
      match lookupTable RESIDUE_CODE_TO_NAME (String.mk finalcode) with
      | none => .error (.keyError (String.mk finalcode))
      | some newresname =>
        let q := get_residues st pool (Int.ofNat (digitsToNat residx))
          (if initialcode.isEmpty then none else some (String.mk initialcode))
        if q.isEmpty then
          .error (.valueError ("Mutation " ++ s ++ " did not match any residues"))
        else .ok (q, newresname)

/-- Whether an association list has the given residue key. -/
def hasKey (m : List (ResId × String)) (r : ResId) : Bool :=
  m.any (fun p => p.1 = r)

/-- Insert each resolved residue into the accumulated mutation map,
asserting it is not already mapped (`assert res not in mutmap`,
line 217). -/
def insertResidues (st : Store) (acc : List (ResId × String)) (newresname : String) :
    List ResId → Except PyErr (List (ResId × String))
  | [] => .ok acc
  | r :: rest =>
    if hasKey acc r then
      .error (.assertionError ("Multiple mutations for " ++ (getRes st r).rname))
    else insertResidues st (acc ++ [(r, newresname)]) newresname rest

/-- Case analysis on an `Except` value (Python `try`-free control flow on
a fallible intermediate result), with definitional reduction lemmas. -/
def exceptCase {α β : Type} (e : Except PyErr α) (f : PyErr → β) (g : α → β) : β :=
  match e with
  | .error x => f x
  | .ok a => g a

@[simp]
theorem exceptCase_error {α β : Type} (x : PyErr) (f : PyErr → β) (g : α → β) :
    exceptCase (.error x) f g = f x := rfl

@[simp]
theorem exceptCase_ok {α β : Type} (a : α) (f : PyErr → β) (g : α → β) :
    exceptCase (.ok a) f g = g a := rfl

/-- Process the mutation strings in order, accumulating the mutation map. -/
def mutStrsGo (st : Store) (mid : MolId) :
    List String → List (ResId × String) → Except PyErr (List (ResId × String))
  | [], acc => .ok acc
  | s :: rest, acc =>
    exceptCase (resolveStr st mid s) (fun e => .error e)
      (fun v =>
        exceptCase (insertResidues st acc v.2 v.1) (fun e => .error e)
          (fun acc2 => mutStrsGo st mid rest acc2))

/-- `_mut_strs_to_map(mol, strs)` for a list of mutation strings. -/
def _mut_strs_to_map (st : Store) (mid : MolId) (strs : List String) :
    Except PyErr (List (ResId × String)) :=
  mutStrsGo st mid strs []

/-!
### `mutate_residues` (lines 49-141)
-/

/-- The two accepted mutation-spec forms: a residue-to-target-name mapping
(Python dict, has `items`), a list of mutation strings, or a single
mutation string. -/
inductive ResidueMapArg where
  | rmap (m : List (ResId × String))
  | strs (l : List String)
  | onestr (s : String)

/-- Update-or-append into an association list (Python dict assignment:
first occurrence keeps its position, the value is overwritten). -/
def dictUpsert (m : List (ResId × String)) (k : ResId) (v : String) :
    List (ResId × String) :=
  if hasKey m k then m.map (fun p => if p.1 = k then (k, v) else p)
  else m ++ [(k, v)]

/-- Association list with Python-dict key semantics built from pairs in
order (a Lean list may repeat keys; a Python dict cannot). -/
def pyDictOf (l : List (ResId × String)) : List (ResId × String) :=
  l.foldl (fun acc p => dictUpsert acc p.1 p.2) []

/-- Lines 79-80: a dict argument is used as is; strings go through
`_mut_strs_to_map`. -/
def normalizeResidueMap (st : Store) (mid : MolId) :
    ResidueMapArg → Except PyErr (List (ResId × String))
  | .rmap m => .ok (pyDictOf m)
  | .strs l => _mut_strs_to_map st mid l
  | .onestr s => _mut_strs_to_map st mid [s]

/-- Nested update for `chain_mutations.setdefault(chainid, {})[res] = ...`
(the inner keys are distinct residues, so plain append). -/
def upsertGroup (g : List (String × List (ResId × String))) (cn : String)
    (p : ResId × String) : List (String × List (ResId × String)) :=
  if g.any (fun q => q.1 = cn) then
    g.map (fun q => if q.1 = cn then (q.1, q.2 ++ [p]) else q)
  else g ++ [(cn, [p])]

/-- Lines 85-86: group the mutation map by owning chain PDB name. -/
def groupMutations (st : Store) (rmap : List (ResId × String)) :
    List (String × List (ResId × String)) :=
  rmap.foldl (fun g p => upsertGroup g (getChain st (getRes st p.1).chain).pdbname p) []

/-- `_mutation_as_str(res, newres)` (lines 152-185, happy path; the
`try/except` fallback is unreachable in the model since all fields are
strings and integers). -/
def _mutation_as_str (st : Store) (r : ResId) (newres : String) : String :=
  let rd := getRes st r
  let mutstr := rd.code ++ intToStr rd.pdbindex ++
    ((lookupTable RESIDUE_ONE_LETTER newres).getD "?")
  let cp := (getChain st rd.chain).pdbname
  if cp.isEmpty then mutstr else cp ++ "." ++ mutstr

/-- Mutation descriptor `'%s-%d-%s' % (res.resname, res.pdbindex, newname)`
(line 90). -/
def mutDescriptor (st : Store) (r : ResId) (newname : String) : String :=
  (getRes st r).resname ++ "-" ++ intToStr (getRes st r).pdbindex ++ "-" ++ newname

/-- The per-chain `applyMutations` argument lists, in chain-group order
(lines 89-92). -/
def mutApplications (st : Store) (rmap : List (ResId × String)) :
    List (List String × String) :=
  (groupMutations st rmap).map (fun g =>
    (g.2.map (fun p => mutDescriptor st p.1 p.2), g.1))

/-- Collect the boundary bonds (lines 117-126): for every backbone atom of
every copied residue, every bond-graph neighbour whose residue is mutated
yields `(original atom, mutated atom, bond order)`; the mutated atom is
fetched by name from the grafted mutant residue (`KeyError` if absent). -/
def bondsFromAtom (st : Store) (rmap : List (ResId × String))
    (oldMap : List (ResId × ResId)) (res : ResId) (a : AtomData) :
    Except PyErr (List (AtomRef × AtomRef × Nat)) :=
  a.bondGraph.foldlM (fun acc b =>
    if hasKey rmap b.1.1 then
      match (oldMap.find? (fun p => p.1 = b.1.1)).map (·.2) with
      | none => .error (.keyError "old_residue_map")
      | some mr =>
        match atomByName (getRes st mr) b.1.2 with
        | .error e => .error e
        | .ok ma => .ok (acc ++ [((res, a.aname), (mr, ma.aname), b.2)])
    else .ok acc) []

/-- Boundary bonds contributed by one copied residue (lines 118-126);
residues with an empty backbone are skipped. -/
def bondsFromRes (st : Store) (rmap : List (ResId × String))
    (oldMap : List (ResId × ResId)) (res : ResId) :
    Except PyErr (List (AtomRef × AtomRef × Nat)) :=
  let rd := getRes st res
  let bb := rd.atoms.filter (fun a => rd.backboneNames.contains a.aname)
  if bb.isEmpty then .ok []
  else bb.foldlM (fun acc a =>
    match bondsFromAtom st rmap oldMap res a with
    | .error e => .error e
    | .ok l => .ok (acc ++ l)) []

/-- All boundary bonds over the copied residues (lines 117-126). -/
def collectOrigBonds (st : Store) (rmap : List (ResId × String))
    (oldMap : List (ResId × ResId)) (toCopy : List ResId) :
    Except PyErr (List (AtomRef × AtomRef × Nat)) :=
  toCopy.foldlM (fun acc res =>
    match bondsFromRes st rmap oldMap res with
    | .error e => .error e
    | .ok l => .ok (acc ++ l)) []

/-- Append one directed bond-graph entry to the named atom of a residue. -/
def addBondEntry (st : Store) (ar : AtomRef) (target : AtomRef) (order : Nat) : Store :=
  setRes st ar.1 { getRes st ar.1 with
    atoms := (getRes st ar.1).atoms.map (fun a =>
      if a.aname = ar.2 then { a with bondGraph := a.bondGraph ++ [(target, order)] }
      else a) }

/-- `atom.bond_to(other, order)`: record the bond in both atoms' bond
graphs.  Modelled from the spec: the host `bond_to` creates the bond in
the shared bond graph of the two atoms. -/
def bond_to (st : Store) (ar br : AtomRef) (order : Nat) : Store :=
  addBondEntry (addBondEntry st ar br order) br ar order

/-- Re-create one boundary bond on the freshly constructed molecule
(lines 134-139): resolve the chain by name, the two residues by name
within that chain, the two atoms by name, then `bond_to`. -/
def repairOne (st : Store) (newId : MolId) (bnd : AtomRef × AtomRef × Nat) :
    Except PyErr Store :=
  exceptCase (chainByName st newId (getChain st (getRes st bnd.1.1).chain).cname)
    (fun e => .error e)
    (fun cid =>
      exceptCase (residueByName st (chainResidues st newId cid)
          (getRes st bnd.1.1).rname)
        (fun e => .error e)
        (fun nr =>
          exceptCase (residueByName st (chainResidues st newId cid)
              (getRes st bnd.2.1.1).rname)
            (fun e => .error e)
            (fun nmr =>
              exceptCase (atomByName (getRes st nr) bnd.1.2)
                (fun e => .error e)
                (fun na =>
                  exceptCase (atomByName (getRes st nmr) bnd.2.1.2)
                    (fun e => .error e)
                    (fun nma => .ok (bond_to st (nr, na.aname)
                      (nmr, nma.aname) bnd.2.2))))))

/-- The loop of lines 134-139 over the collected boundary bonds; a failed
lookup stops the loop, keeping the bonds already re-created. -/
def repairBonds (st : Store) (newId : MolId) :
    List (AtomRef × AtomRef × Nat) → Store × Except PyErr Unit
  | [] => (st, .ok ())
  | b :: rest =>
    exceptCase (repairOne st newId b)
      (fun e => (st, .error e))
      (fun st2 => repairBonds st2 newId rest)

/-- State of the reconciliation fold of lines 99-108. -/
structure GraftState where
  st : Store
  toCopy : List ResId
  oldMap : List (ResId × ResId)

/-- One step of lines 101-108: mutated residues are grafted (the temp
residue's `mol` is cleared and its `chain` is repointed at the original
chain object); other residues are kept. -/
def graftStep (rmap : List (ResId × String)) (g : GraftState)
    (pr : ResId × ResId) : GraftState :=
  if hasKey rmap pr.1 then
    { st := setRes g.st pr.2 { getRes g.st pr.2 with
        mol := none, chain := (getRes g.st pr.1).chain },
      toCopy := g.toCopy ++ [pr.2],
      oldMap := g.oldMap ++ [(pr.1, pr.2)] }
  else { g with toCopy := g.toCopy ++ [pr.1] }

/-- Lines 93: the temp mutant produced by `fixer_to_mol(fixer)` after the
per-chain `applyMutations` calls, allocated into the store. -/
def mutTemp (eng : Engine) (st : Store) (mid : MolId)
    (rmap : List (ResId × String)) : Store × MolId :=
  topology_to_mol st (eng.mutOut st mid (mutApplications st rmap)) ""

/-- Line 94: chain-name normalization applied to the temp mutant. -/
def mutFixed (eng : Engine) (st : Store) (mid : MolId)
    (rmap : List (ResId × String)) : Store :=
  _pdbfixer_chainnames_to_letter (mutTemp eng st mid rmap).1
    (mutTemp eng st mid rmap).2

/-- Lines 99-108: the reconciliation fold over the zipped residue lists. -/
def mutGraft (eng : Engine) (st : Store) (mid : MolId)
    (rmap : List (ResId × String)) : GraftState :=
  ((getMol (mutFixed eng st mid rmap) mid).residues.zip
    ((getMol (mutFixed eng st mid rmap) (mutTemp eng st mid rmap).2).residues)).foldl
    (graftStep rmap) ⟨mutFixed eng st mid rmap, [], []⟩

/-- Lines 128-131: construction of the mutant molecule from the
reconciled residue list, with provenance metadata. -/
def mutNew (eng : Engine) (st : Store) (mid : MolId)
    (rmap : List (ResId × String)) : Store × MolId :=
  Molecule.new (mutGraft eng st mid rmap).st
    ((mutGraft eng st mid rmap).toCopy.map Component.res)
    ("Mutant of \"" ++ (getMol (mutGraft eng st mid rmap).st mid).mname ++ "\"")
    [("origin", MetaVal.mmap (getMol (mutGraft eng st mid rmap).st mid).metadata),
     ("mutations", MetaVal.mlist (rmap.map (fun p => _mutation_as_str st p.1 p.2)))]

/-- Lines 85-141 after the spec has been normalized and found non-empty:
the external round-trip, the residue-count assertion, reconciliation,
construction and bond repair. -/
def mutateCore (eng : Engine) (st : Store) (mid : MolId)
    (rmap : List (ResId × String)) : Store × List Event × Except PyErr MolId :=
  let tr1 := Event.fixerInit ::
    (mutApplications st rmap).map (fun a => Event.applyMutations a.1 a.2)
  if numResidues (mutFixed eng st mid rmap) (mutTemp eng st mid rmap).2 =
      numResidues (mutFixed eng st mid rmap) mid then
    exceptCase (collectOrigBonds (mutGraft eng st mid rmap).st rmap
        (mutGraft eng st mid rmap).oldMap (mutGraft eng st mid rmap).toCopy)
      (fun e => ((mutGraft eng st mid rmap).st, tr1, .error e))
      (fun origBonds =>
        exceptCase (repairBonds (mutNew eng st mid rmap).1
            (mutNew eng st mid rmap).2 origBonds).2
          (fun e => ((repairBonds (mutNew eng st mid rmap).1
              (mutNew eng st mid rmap).2 origBonds).1, tr1, .error e))
          (fun _ => ((repairBonds (mutNew eng st mid rmap).1
              (mutNew eng st mid rmap).2 origBonds).1, tr1,
            .ok (mutNew eng st mid rmap).2)))
  else (mutFixed eng st mid rmap, tr1,
    .error (.assertionError "mutation changed residue count"))

/-- `mutate_residues(mol, residue_map)` (lines 49-141).  Returns the final
store, the ordered trace of external-engine calls, and the result (the
new molecule id, or the Python exception).  The fixer construction
(line 76) precedes the normalization of the mutation spec (lines 79-83),
so the `fixerInit` external call is in the trace even when normalization
fails. -/
def mutate_residues (eng : Engine) (st : Store) (mid : MolId)
    (arg : ResidueMapArg) : Store × List Event × Except PyErr MolId :=
  exceptCase (normalizeResidueMap st mid arg)
    (fun e => (st, [Event.fixerInit], .error e))
    (fun rmap =>
      if rmap.isEmpty then
        (st, [Event.fixerInit], .error (.valueError "No mutations specified!"))
      else mutateCore eng st mid rmap)

/-!
### `add_water` (lines 223-308)
-/

/-- Ion-name sign handling (lines 253-259, one of the two symmetric
blocks): `if name[-1] != want: assert name[-1] != other; name += want`.
Python raises `IndexError` on `""[-1]`. -/
def fixIon (name : String) (want other : Char) : Except PyErr String :=
  match name.data.getLast? with
  | none => .error (.indexError "string index out of range")
  | some c =>
    if c = want then .ok name
    else if c = other then .error (.assertionError "ion name has the opposite sign")
    else .ok (name ++ String.mk [want])

/-- Both ion-name blocks in source order (positive first). -/
def normIonPair (positive_ion negative_ion : String) :
    Except PyErr (String × String) :=
  match fixIon positive_ion '+' '-' with
  | .error e => .error e
  | .ok p =>
    match fixIon negative_ion '-' '+' with
    | .error e => .error e
    | .ok n => .ok (p, n)

/-- `min_box_size`: a uniform cube length or an explicit x,y,z vector. -/
inductive BoxSpec where
  | scalar (q : ℚ)
  | vec (v : ℚ × ℚ × ℚ)
deriving DecidableEq

/-- Python truthiness of `min_box_size` (line 269): `None` and a zero
scalar quantity are falsy; the truth value of a length-3 array quantity is
ambiguous and raises `ValueError`. -/
def truthyBox : Option BoxSpec → Except PyErr Bool
  | none => .ok false
  | some (.scalar q) => .ok (q ≠ 0)
  | some (.vec _) =>
    .error (.valueError "The truth value of an array with more than one element is ambiguous")

/-- `boxsize[:] = min_box_size` broadcast. -/
def assignBox : BoxSpec → ℚ × ℚ × ℚ
  | .scalar q => (q, q, q)
  | .vec v => v

/-- Per-dimension extents `mol.positions.max(axis=0) - mol.positions.min(axis=0)`
(line 272); numpy raises `ValueError` on an empty reduction. -/
def axisRanges (ps : List (ℚ × ℚ × ℚ)) : Except PyErr (ℚ × ℚ × ℚ) :=
  match ps with
  | [] => .error (.valueError "zero-size array to reduction operation")
  | p :: rest =>
    let mx := rest.foldl (fun m q => (max m.1 q.1, max m.2.1 q.2.1, max m.2.2 q.2.2)) p
    let mn := rest.foldl (fun m q => (min m.1 q.1, min m.2.1 q.2.1, min m.2.2 q.2.2)) p
    .ok (mx.1 - mn.1, mx.2.1 - mn.2.1, mx.2.2 - mn.2.2)

/-- Box-size computation (lines 266-275): start from an all-zero box, copy
an explicit (truthy) `min_box_size`, then for a truthy `padding` raise
each dimension to `max(boxsize[i], extent[i] + padding)`; finally
`assert (boxsize >= 0).all()`. -/
def computeBoxsize (min_box_size : Option BoxSpec) (padding : Option ℚ)
    (ps : List (ℚ × ℚ × ℚ)) : Except PyErr (ℚ × ℚ × ℚ) :=
  match truthyBox min_box_size with
  | .error e => .error e
  | .ok t =>
    let box1 : ℚ × ℚ × ℚ :=
      if t then assignBox (min_box_size.getD (.scalar 0)) else (0, 0, 0)
    let box2E : Except PyErr (ℚ × ℚ × ℚ) :=
      match padding with
      | none => .ok box1
      | some p =>
        if p ≠ 0 then
          match axisRanges ps with
          | .error e => .error e
          | .ok r =>
            .ok (max box1.1 (r.1 + p), max box1.2.1 (r.2.1 + p),
                 max box1.2.2 (r.2.2 + p))
        else .ok box1
    match box2E with
    | .error e => .error e
    | .ok b =>
      if 0 ≤ b.1 ∧ 0 ≤ b.2.1 ∧ 0 ≤ b.2.2 then .ok b
      else .error (.assertionError "negative box dimension")

/-- Line 289: the solvated output of the external tool, allocated into
the store as a fresh molecule named `"<mol> with water box"`. -/
def solvTemp (eng : Engine) (st : Store) (mid : MolId) (call : SolvCall) :
    Store × MolId :=
  topology_to_mol st (eng.solvOut st mid call)
    ((getMol st mid).mname ++ " with water box")

/-- Line 293: chain-name normalization applied to the solvated output. -/
def solvFixed (eng : Engine) (st : Store) (mid : MolId) (call : SolvCall) :
    Store :=
  _pdbfixer_chainnames_to_letter (solvTemp eng st mid call).1
    (solvTemp eng st mid call).2

/-- Line 298-300: the constructor components — the (unchanged) solute
molecule followed by the solvated output's residues beyond the solute's
residue count. -/
def solvComps (eng : Engine) (st : Store) (mid : MolId) (call : SolvCall) :
    List Component :=
  Component.mol mid ::
    ((getMol (solvFixed eng st mid call) (solvTemp eng st mid call).2).residues.drop
      (numResidues (solvFixed eng st mid call) mid)).map Component.res

/-- Name of the solvated molecule. -/
def solvName (eng : Engine) (st : Store) (mid : MolId) (call : SolvCall) : String :=
  "Solvated " ++ (getMol (solvFixed eng st mid call) mid).mname

/-- Metadata of the solvated molecule. -/
def solvMd (eng : Engine) (st : Store) (mid : MolId) (call : SolvCall) :
    List (String × MetaVal) :=
  [("origin", MetaVal.mmap (getMol (solvFixed eng st mid call) mid).metadata)]

/-- Lines 298-304: the new molecule built from the (unchanged) solute
plus the solvated output's residues beyond the solute's residue count. -/
def solvNew (eng : Engine) (st : Store) (mid : MolId) (call : SolvCall) :
    Store × MolId :=
  Molecule.new (solvFixed eng st mid call) (solvComps eng st mid call)
    (solvName eng st mid call) (solvMd eng st mid call)

/-- Lines 277-308 once the `addSolvent` arguments are fixed: the external
calls, reassembly, and the two trailing count assertions. -/
def solvCore (eng : Engine) (st : Store) (mid : MolId) (call : SolvCall) :
    Store × List Event × Except PyErr MolId :=
  let tr : List Event :=
    [Event.toModeller, Event.createForceField,
     Event.addSolvent call.box call.positiveIon call.negativeIon
       call.ionicStrength call.neutralize]
  if numAtoms (solvNew eng st mid call).1 (solvNew eng st mid call).2 =
      numAtoms (solvNew eng st mid call).1 (solvTemp eng st mid call).2 then
    if numResidues (solvNew eng st mid call).1 (solvNew eng st mid call).2 =
        numResidues (solvNew eng st mid call).1 (solvTemp eng st mid call).2 then
      ((solvNew eng st mid call).1, tr, .ok (solvNew eng st mid call).2)
    else ((solvNew eng st mid call).1, tr,
      .error (.assertionError "solvated residue count mismatch"))
  else ((solvNew eng st mid call).1, tr,
    .error (.assertionError "solvated atom count mismatch"))

/-- `add_water(mol, min_box_size, padding, ion_concentration, neutralize,
positive_ion, negative_ion)` (lines 223-308).  The ionic concentration is
carried through unchanged (the model takes it already in molar; the
unit-wrapping of lines 261-264 is the identity here).  Returns the final
store, the trace of external calls, and the new molecule id or the
exception. -/
def add_water (eng : Engine) (st : Store) (mid : MolId)
    (min_box_size : Option BoxSpec) (padding : Option ℚ)
    (ion_concentration : ℚ) (neutralize : Bool)
    (positive_ion negative_ion : String) :
    Store × List Event × Except PyErr MolId :=
  if padding = none ∧ min_box_size = none then
    (st, [], .error (.valueError
      "Solvate arguments: must pass padding or min_box_size or both."))
  else
    exceptCase (normIonPair positive_ion negative_ion)
      (fun e => (st, [], .error e))
      (fun pr =>
        exceptCase (computeBoxsize min_box_size padding (positionsOf st mid))
          (fun e => (st, [], .error e))
          (fun box => solvCore eng st mid
            { box := box, positiveIon := pr.1, negativeIon := pr.2,
              ionicStrength := ion_concentration, neutralize := neutralize }))

/-!
### A concrete molecule and engine for witnesses

A two-chain protein: chain A with ALA2-GLY3 (peptide bond between them),
chain B with SER2; every residue has backbone atoms N and C.
-/

/-- Atoms of the example residue ALA2. -/
def exAtomsALA2 : List AtomData :=
  [⟨"N", "N", (0, 0, 0), []⟩, ⟨"C", "C", (1, 0, 0), [((1, "N"), 1)]⟩]

/-- Atoms of the example residue GLY3. -/
def exAtomsGLY3 : List AtomData :=
  [⟨"N", "N", (2, 0, 0), [((0, "C"), 1)]⟩, ⟨"C", "C", (3, 0, 0), []⟩]

/-- Atoms of the example residue SER2 (chain B). -/
def exAtomsSER2 : List AtomData :=
  [⟨"N", "N", (0, 5, 0), []⟩, ⟨"C", "C", (1, 5, 0), []⟩]

/-- The example store: molecule 0 with chains A and B and residues
ALA2, GLY3 (chain A) and SER2 (chain B). -/
def exStore : Store :=
  { chainsS := [⟨"A", "A"⟩, ⟨"B", "B"⟩],
    resS :=
      [⟨"ALA", "A", 2, "ALA2", 0, some 0, ["N", "C"], exAtomsALA2⟩,
       ⟨"GLY", "G", 3, "GLY3", 0, some 0, ["N", "C"], exAtomsGLY3⟩,
       ⟨"SER", "S", 2, "SER2", 1, some 0, ["N", "C"], exAtomsSER2⟩],
    molsS := [⟨"protein", [0, 1], [0, 1, 2], []⟩] }

/-- Engine output for the example mutation ALA2→SER: same topology with
the first residue replaced by a serine. -/
def exMutEngMol : EngMol :=
  ⟨[⟨"SER", "S", 2, "SER2", "A", ["N", "C"],
     [⟨"N", "N", (0, 0, 0), []⟩, ⟨"C", "C", (1, 0, 0), [((1, "N"), 1)]⟩]⟩,
    ⟨"GLY", "G", 3, "GLY3", "A", ["N", "C"],
     [⟨"N", "N", (2, 0, 0), [((0, "C"), 1)]⟩, ⟨"C", "C", (3, 0, 0), []⟩]⟩,
    ⟨"SER", "S", 2, "SER2", "B", ["N", "C"],
     [⟨"N", "N", (0, 5, 0), []⟩, ⟨"C", "C", (1, 5, 0), []⟩]⟩]⟩

/-- Engine output for the example solvation: the solute topology followed
by two water residues in a chain the tool numbered "1". -/
def exSolvEngMol : EngMol :=
  ⟨[⟨"ALA", "A", 2, "ALA2", "A", ["N", "C"],
     [⟨"N", "N", (0, 0, 0), []⟩, ⟨"C", "C", (1, 0, 0), [((1, "N"), 1)]⟩]⟩,
    ⟨"GLY", "G", 3, "GLY3", "A", ["N", "C"],
     [⟨"N", "N", (2, 0, 0), [((0, "C"), 1)]⟩, ⟨"C", "C", (3, 0, 0), []⟩]⟩,
    ⟨"SER", "S", 2, "SER2", "B", ["N", "C"],
     [⟨"N", "N", (0, 5, 0), []⟩, ⟨"C", "C", (1, 5, 0), []⟩]⟩,
    ⟨"HOH", "?", 1, "HOH1", "1", [],
     [⟨"O", "O", (9, 9, 9), []⟩]⟩,
    ⟨"HOH", "?", 2, "HOH2", "1", [],
     [⟨"O", "O", (9, 9, 8), []⟩]⟩]⟩

/-- The example engine: constant outputs matching `exStore`. -/
def EX : Engine :=
  { mutOut := fun _ _ _ => exMutEngMol,
    solvOut := fun _ _ _ => exSolvEngMol }

/-- An engine whose mutation output drops a residue (misbehaving external
call, used to exercise the residue-count assertion). -/
def EXbad : Engine :=
  { mutOut := fun _ _ _ => ⟨exMutEngMol.residues.take 2⟩,
    solvOut := fun _ _ _ => exSolvEngMol }

/-!
### Theorems

Each claim of the specification is settled by one theorem below, stated
over the embedded definitions above.
-/

/-- C5 counterexample: the chain name `"0"` is purely numeric with integer
value 0 — not between 1 and 26 — yet normalization does not leave it
unchanged: Python evaluates `ascii_uppercase[int("0") - 1]`, i.e. the
valid negative index `-1`, and rewrites the name to `"Z"`.  The same
happens through the molecule-level pass. -/
theorem chainname_zero_rewritten_counterexample :
    chainnameToLetter "0" = "Z" ∧ "Z" ≠ "0" ∧
    (_pdbfixer_chainnames_to_letter
      { chainsS := [⟨"0", "0"⟩], resS := [], molsS := [⟨"m", [0], [], []⟩] }
      0).chainsS = [⟨"Z", "0"⟩] :=
  ⟨rfl, by decide, rfl⟩

/-- C5 (amended): chain-name normalization rewrites a purely numeric name
with value `v`, `1 ≤ v ≤ 26`, to the corresponding uppercase letter;
rewrites a numeric name with value `0` to `"Z"` (Python index `-1` wraps
around); and leaves every other name — non-numeric, or numeric with value
above 26 — unchanged.  It never raises (it is a total function). -/
theorem chainname_to_letter_cases (s : String) :
    (pyIsDigit s.data = true → 1 ≤ digitsToNat s.data → digitsToNat s.data ≤ 26 →
      chainnameToLetter s = letterFor (digitsToNat s.data)) ∧
    (pyIsDigit s.data = true → digitsToNat s.data = 0 →
      chainnameToLetter s = "Z") ∧
    (pyIsDigit s.data = true → 26 < digitsToNat s.data →
      chainnameToLetter s = s) ∧
    (pyIsDigit s.data = false → chainnameToLetter s = s) := by
  have hlen : asciiUppercase.length = 26 := rfl
  refine ⟨?_, ?_, ?_, ?_⟩
  · intro hd h1 h26
    unfold chainnameToLetter
    rw [hd, if_pos rfl]
    unfold pyStringIndex pyIdx
    simp only [Int.ofNat_eq_coe]
    have hnneg : ¬ ((digitsToNat s.data : Int) - 1 < 0) := by omega
    rw [if_neg hnneg]
    rw [if_pos (by constructor <;> [omega; (rw [hlen]; omega)])]
    have htn : ((digitsToNat s.data : Int) - 1).toNat = digitsToNat s.data - 1 := by
      omega
    rw [htn]
    unfold letterFor
    have hlt : digitsToNat s.data - 1 < asciiUppercase.length := by omega
    rw [List.getD_eq_getElem _ _ hlt, List.getD_eq_getElem _ _ hlt]
  · intro hd h0
    unfold chainnameToLetter
    rw [hd, if_pos rfl, h0]
    rfl
  · intro hd h26
    unfold chainnameToLetter
    rw [hd, if_pos rfl]
    unfold pyStringIndex pyIdx
    simp only [Int.ofNat_eq_coe]
    have hnneg : ¬ ((digitsToNat s.data : Int) - 1 < 0) := by omega
    rw [if_neg hnneg]
    rw [if_neg (by rw [hlen]; omega)]
  · intro hd
    unfold chainnameToLetter
    rw [hd]
    simp

/-- C5 witness: the amended cases evaluated at `"2"` (rewritten to a
letter), `"27"` (value above 26, unchanged) and `"B"` (non-numeric,
unchanged). -/
theorem chainname_to_letter_cases_witness :
    chainnameToLetter "2" = letterFor 2 ∧ chainnameToLetter "27" = "27" ∧
    chainnameToLetter "B" = "B" :=
  ⟨(chainname_to_letter_cases "2").1 (by decide) (by decide) (by decide),
   (chainname_to_letter_cases "27").2.2.1 (by decide) (by decide),
   (chainname_to_letter_cases "B").2.2.2 (by decide)⟩

/-- Shape of an `add_water` run that reaches the external call: the trace
is exactly modeller construction, force-field construction and the
`addSolvent` call with the computed box and normalized ion names, and the
result is either the new molecule or one of the two trailing count
assertions. -/
theorem add_water_success_shape (eng : Engine) (st : Store) (mid : MolId)
    (minB : Option BoxSpec) (pad : Option ℚ) (conc : ℚ) (neut : Bool)
    (pos neg : String) (box : ℚ × ℚ × ℚ) (pio nio : String)
    (hv : ¬ (pad = none ∧ minB = none))
    (hion : normIonPair pos neg = .ok (pio, nio))
    (hbox : computeBoxsize minB pad (positionsOf st mid) = .ok box) :
    (add_water eng st mid minB pad conc neut pos neg).2.1 =
      [Event.toModeller, Event.createForceField,
       Event.addSolvent box pio nio conc neut] ∧
    ((∃ nid, (add_water eng st mid minB pad conc neut pos neg).2.2 = .ok nid) ∨
     (∃ m, (add_water eng st mid minB pad conc neut pos neg).2.2 =
        .error (.assertionError m))) := by
  unfold add_water
  rw [if_neg hv, hion, exceptCase_ok, hbox, exceptCase_ok]
  unfold solvCore
  split
  · split
    · exact ⟨rfl, .inl ⟨_, rfl⟩⟩
    · exact ⟨rfl, .inr ⟨_, rfl⟩⟩
  · exact ⟨rfl, .inr ⟨_, rfl⟩⟩

/-- C10: the missing-arguments validation tests only for `None`, while the
box computation tests truthiness: `min_box_size = 0` with no padding, and
`padding = 0` with no box size, both pass validation, contribute nothing
to the box, and reach the external call with an all-zero box; no value
error is raised in either case. -/
theorem add_water_zero_box_arguments (eng : Engine) (st : Store) (mid : MolId) :
    (∀ m, (add_water eng st mid (some (.scalar 0)) none 0 true "Na+" "Cl-").2.2 ≠
        .error (.valueError m)) ∧
    Event.addSolvent (0, 0, 0) "Na+" "Cl-" 0 true ∈
      (add_water eng st mid (some (.scalar 0)) none 0 true "Na+" "Cl-").2.1 ∧
    (∀ m, (add_water eng st mid none (some 0) 0 true "Na+" "Cl-").2.2 ≠
        .error (.valueError m)) ∧
    Event.addSolvent (0, 0, 0) "Na+" "Cl-" 0 true ∈
      (add_water eng st mid none (some 0) 0 true "Na+" "Cl-").2.1 := by
  have hA := add_water_success_shape eng st mid (some (.scalar 0)) none 0 true
    "Na+" "Cl-" (0, 0, 0) "Na+" "Cl-" (by simp) rfl rfl
  have hB := add_water_success_shape eng st mid none (some 0) 0 true
    "Na+" "Cl-" (0, 0, 0) "Na+" "Cl-" (by simp) rfl rfl
  refine ⟨?_, ?_, ?_, ?_⟩
  · intro m hc
    rcases hA.2 with ⟨nid, h⟩ | ⟨m2, h⟩ <;> rw [h] at hc <;> simp at hc
  · rw [hA.1]; simp
  · intro m hc
    rcases hB.2 with ⟨nid, h⟩ | ⟨m2, h⟩ <;> rw [h] at hc <;> simp at hc
  · rw [hB.1]; simp

/-- Bound extracted from the box computation when only padding is given:
each dimension of a successfully computed box is at least the matching
solute extent plus the padding. -/
theorem computeBoxsize_padding_lower_bound (p : ℚ) (ps : List (ℚ × ℚ × ℚ))
    (b r : ℚ × ℚ × ℚ) (hp : p ≠ 0)
    (hb : computeBoxsize none (some p) ps = .ok b)
    (hr : axisRanges ps = .ok r) :
    r.1 + p ≤ b.1 ∧ r.2.1 + p ≤ b.2.1 ∧ r.2.2 + p ≤ b.2.2 := by
  simp only [computeBoxsize, truthyBox] at hb
  rw [if_pos hp, hr] at hb
  simp only [Bool.false_eq_true, if_false] at hb
  split at hb
  · rw [Except.ok.injEq] at hb
    subst hb
    exact ⟨le_max_right _ _, le_max_right _ _, le_max_right _ _⟩
  · cases hb

/-- C6: with a positive padding and no explicit box size, the box handed
to the external `addSolvent` call is, in every dimension, at least the
solute's axis-aligned extent in that dimension plus the padding. -/
theorem add_water_padding_box_bound (eng : Engine) (st : Store) (mid : MolId)
    (p conc : ℚ) (neut : Bool) (pos neg : String) (b : ℚ × ℚ × ℚ)
    (pio nio : String) (ic : ℚ) (nu : Bool) (r : ℚ × ℚ × ℚ)
    (hp : 0 < p)
    (hmem : Event.addSolvent b pio nio ic nu ∈
      (add_water eng st mid none (some p) conc neut pos neg).2.1)
    (hr : axisRanges (positionsOf st mid) = .ok r) :
    r.1 + p ≤ b.1 ∧ r.2.1 + p ≤ b.2.1 ∧ r.2.2 + p ≤ b.2.2 := by
  cases hion : normIonPair pos neg with
  | error e =>
    unfold add_water at hmem
    rw [if_neg (by simp), hion] at hmem
    simp at hmem
  | ok pr =>
    cases hbox : computeBoxsize none (some p) (positionsOf st mid) with
    | error e =>
      unfold add_water at hmem
      rw [if_neg (by simp), hion, hbox] at hmem
      simp at hmem
    | ok box =>
      rw [(add_water_success_shape eng st mid none (some p) conc neut pos neg
        box pr.1 pr.2 (by simp) hion hbox).1] at hmem
      simp only [List.mem_cons, List.not_mem_nil, or_false] at hmem
      rcases hmem with h | h | h
      · cases h
      · cases h
      · rw [show b = box from (Event.addSolvent.injEq ..).mp h |>.1]
        exact computeBoxsize_padding_lower_bound p _ box r (ne_of_gt hp) hbox hr

/-- C6 witness: solvating the example molecule (extents 3, 5, 0) with
padding 10 and no explicit box produces the box (13, 15, 10), which meets
the per-dimension bound. -/
theorem add_water_padding_box_bound_witness :
    (3 : ℚ) + 10 ≤ 13 ∧ (5 : ℚ) + 10 ≤ 15 ∧ (0 : ℚ) + 10 ≤ 10 := by
  have hr : axisRanges (positionsOf exStore 0) = .ok (3, 5, 0) := by
    show axisRanges [(0,0,0),(1,0,0),(2,0,0),(3,0,0),(0,5,0),(1,5,0)] = .ok (3,5,0)
    unfold axisRanges
    norm_num [max_def, min_def]
  have hbox : computeBoxsize none (some 10) (positionsOf exStore 0) = .ok (13, 15, 10) := by
    simp only [computeBoxsize, truthyBox]
    rw [if_pos (by norm_num), hr]
    simp only [Bool.false_eq_true, if_false]
    rw [if_pos (by norm_num)]
    norm_num [max_def]
  have hmem : Event.addSolvent (13, 15, 10) "Na+" "Cl-" 0 true ∈
      (add_water EX exStore 0 none (some 10) 0 true "Na+" "Cl-").2.1 := by
    rw [(add_water_success_shape EX exStore 0 none (some 10) 0 true "Na+" "Cl-"
      (13, 15, 10) "Na+" "Cl-" (by simp) rfl hbox).1]
    simp
  exact add_water_padding_box_bound EX exStore 0 10 0 true "Na+" "Cl-"
    (13, 15, 10) "Na+" "Cl-" 0 true (3, 5, 0) (by norm_num) hmem hr

/-- Sign handling of one ion name: a name already ending in the wanted
sign passes through. -/
theorem fixIon_last_want (nm : String) (want other : Char)
    (h : nm.data.getLast? = some want) : fixIon nm want other = .ok nm := by
  unfold fixIon
  rw [h]
  dsimp only
  rw [if_pos rfl]

/-- Sign handling of one ion name: a name ending in the opposite sign is
an assertion failure. -/
theorem fixIon_last_other (nm : String) (want other : Char)
    (h : nm.data.getLast? = some other) (hne : other ≠ want) :
    fixIon nm want other = .error (.assertionError "ion name has the opposite sign") := by
  unfold fixIon
  rw [h]
  dsimp only
  rw [if_neg hne, if_pos rfl]

/-- Sign handling of one ion name: a name ending in neither sign gets the
wanted sign appended. -/
theorem fixIon_append (nm : String) (want other c : Char)
    (h : nm.data.getLast? = some c) (h1 : c ≠ want) (h2 : c ≠ other) :
    fixIon nm want other = .ok (nm ++ String.mk [want]) := by
  unfold fixIon
  rw [h]
  dsimp only
  rw [if_neg h1, if_neg h2]

/-- C9 counterexample: the empty string is an ion-name argument that does
not end in `'+'`, yet `add_water` neither appends a sign nor raises the
contract assertion — Python raises `IndexError` on `""[-1]` — so the
claim's universally quantified description fails at this input. -/
theorem add_water_empty_ion_counterexample :
    add_water EX exStore 0 (some (.scalar 1)) none 0 true "" "Cl-" =
      (exStore, [], .error (.indexError "string index out of range")) := rfl

/-- C9 (amended): for non-empty ion names (the last character exists):
a positive-ion name ending in `'-'`, or a negative-ion name ending in
`'+'` once the positive name was accepted, triggers the fatal assertion
with no external call made (empty trace); a name ending in neither sign
has the correct sign appended, a name already ending in its correct sign
passes through unchanged; and the names carried by any `addSolvent`
external call are exactly the normalized pair.  (An empty ion name
instead raises `IndexError`.) -/
theorem add_water_ion_sign_handling (eng : Engine) (st : Store) (mid : MolId)
    (minB : Option BoxSpec) (pad : Option ℚ) (conc : ℚ) (neut : Bool)
    (pos neg : String)
    (hv : ¬ (pad = none ∧ minB = none)) :
    (pos.data.getLast? = some '-' →
      add_water eng st mid minB pad conc neut pos neg =
        (st, [], .error (.assertionError "ion name has the opposite sign"))) ∧
    (∀ p', fixIon pos '+' '-' = .ok p' → neg.data.getLast? = some '+' →
      add_water eng st mid minB pad conc neut pos neg =
        (st, [], .error (.assertionError "ion name has the opposite sign"))) ∧
    (∀ c, pos.data.getLast? = some c → c ≠ '+' → c ≠ '-' →
      fixIon pos '+' '-' = .ok (pos ++ String.mk ['+'])) ∧
    (pos.data.getLast? = some '+' → fixIon pos '+' '-' = .ok pos) ∧
    (∀ c, neg.data.getLast? = some c → c ≠ '-' → c ≠ '+' →
      fixIon neg '-' '+' = .ok (neg ++ String.mk ['-'])) ∧
    (neg.data.getLast? = some '-' → fixIon neg '-' '+' = .ok neg) ∧
    (∀ b pio nio ic nu, Event.addSolvent b pio nio ic nu ∈
        (add_water eng st mid minB pad conc neut pos neg).2.1 →
      normIonPair pos neg = .ok (pio, nio)) := by
  refine ⟨?_, ?_, ?_, ?_, ?_, ?_, ?_⟩
  · intro hlast
    have hfix := fixIon_last_other pos '+' '-' hlast (by decide)
    unfold add_water
    rw [if_neg hv]
    simp only [normIonPair, hfix, exceptCase_error]
  · intro p' hp hlast
    have hfix := fixIon_last_other neg '-' '+' hlast (by decide)
    unfold add_water
    rw [if_neg hv]
    simp only [normIonPair, hp, hfix, exceptCase_error]
  · exact fun c h h1 h2 => fixIon_append pos '+' '-' c h h1 h2
  · exact fun h => fixIon_last_want pos '+' '-' h
  · exact fun c h h1 h2 => fixIon_append neg '-' '+' c h h1 h2
  · exact fun h => fixIon_last_want neg '-' '+' h
  · intro b pio nio ic nu hmem
    cases hion : normIonPair pos neg with
    | error e =>
      unfold add_water at hmem
      rw [if_neg hv, hion] at hmem
      simp at hmem
    | ok pr =>
      cases hbox : computeBoxsize minB pad (positionsOf st mid) with
      | error e =>
        unfold add_water at hmem
        rw [if_neg hv, hion, hbox] at hmem
        simp at hmem
      | ok box =>
        rw [(add_water_success_shape eng st mid minB pad conc neut pos neg
          box pr.1 pr.2 hv hion hbox).1] at hmem
        simp only [List.mem_cons, List.not_mem_nil, or_false] at hmem
        rcases hmem with h | h | h
        · cases h
        · cases h
        · obtain ⟨-, hpio, hnio, -, -⟩ := (Event.addSolvent.injEq ..).mp h
          rw [hpio, hnio]

/-- C9 witness: the amended cases at concrete inputs — `"Na-"` as
positive ion is a fatal assertion with empty trace; `"K"` gets `'+'`
appended; `"Na+"` passes through; and the run with `"Na"`/`"Cl"` calls
the engine with exactly `"Na+"`/`"Cl-"`. -/
theorem add_water_ion_sign_handling_witness :
    (add_water EX exStore 0 (some (.scalar 1)) none 0 true "Na-" "Cl" =
      (exStore, [], .error (.assertionError "ion name has the opposite sign"))) ∧
    fixIon "K" '+' '-' = .ok ("K" ++ String.mk ['+']) ∧
    fixIon "Na+" '+' '-' = .ok "Na+" ∧
    normIonPair "Na" "Cl" = .ok ("Na+", "Cl-") :=
  ⟨(add_water_ion_sign_handling EX exStore 0 (some (.scalar 1)) none 0 true
      "Na-" "Cl" (by simp)).1 rfl,
   (add_water_ion_sign_handling EX exStore 0 (some (.scalar 1)) none 0 true
      "K" "Cl" (by simp)).2.2.1 'K' rfl (by decide) (by decide),
   (add_water_ion_sign_handling EX exStore 0 (some (.scalar 1)) none 0 true
      "Na+" "Cl" (by simp)).2.2.2.1 rfl,
   (add_water_ion_sign_handling EX exStore 0 (some (.scalar 1)) none 0 true
      "Na" "Cl" (by simp)).2.2.2.2.2.2 (1, 1, 1) "Na+" "Cl-" 0 true (by decide)⟩

/-- Membership sense of `hasKey`. -/
theorem hasKey_iff (m : List (ResId × String)) (r : ResId) :
    hasKey m r = true ↔ r ∈ m.map (·.1) := by
  simp only [hasKey, List.any_eq_true, decide_eq_true_eq, List.mem_map]

/-- The per-string insertion keeps the mutation-map keys duplicate-free
(the `assert` guards every insertion). -/
theorem insertResidues_nodup (st : Store) (nn : String) :
    ∀ (rs : List ResId) (acc acc2 : List (ResId × String)),
      insertResidues st acc nn rs = .ok acc2 →
      (acc.map (·.1)).Nodup → (acc2.map (·.1)).Nodup := by
  intro rs
  induction rs with
  | nil =>
    intro acc acc2 h hnd
    cases h
    exact hnd
  | cons r rest ih =>
    intro acc acc2 h hnd
    unfold insertResidues at h
    split at h
    · cases h
    · refine ih _ _ h ?_
      rename_i hk
      rw [List.map_append, List.nodup_append]
      refine ⟨hnd, List.nodup_singleton _, ?_⟩
      intro x hx hx2
      simp only [List.map_cons, List.map_nil, List.mem_singleton] at hx2
      rw [hx2] at hx
      exact absurd ((hasKey_iff acc _).mpr hx) (by simpa using hk)

/-- A successfully built mutation map has duplicate-free keys. -/
theorem mutStrsGo_nodup (st : Store) (mid : MolId) :
    ∀ (ss : List String) (acc m : List (ResId × String)),
      mutStrsGo st mid ss acc = .ok m →
      (acc.map (·.1)).Nodup → (m.map (·.1)).Nodup := by
  intro ss
  induction ss with
  | nil =>
    intro acc m h hnd
    cases h
    exact hnd
  | cons s rest ih =>
    intro acc m h hnd
    unfold mutStrsGo at h
    cases hres : resolveStr st mid s with
    | error e => rw [hres, exceptCase_error] at h; cases h
    | ok v =>
      rw [hres, exceptCase_ok] at h
      cases hins : insertResidues st acc v.2 v.1 with
      | error e => rw [hins, exceptCase_error] at h; cases h
      | ok acc2 =>
        rw [hins, exceptCase_ok] at h
        exact ih _ _ h (insertResidues_nodup st _ _ _ _ hins hnd)

/-- Rebuilding an association list with duplicate-free keys under Python
dict semantics is the identity. -/
theorem pyDictOf_eq_self (l : List (ResId × String))
    (h : (l.map (·.1)).Nodup) : pyDictOf l = l := by
  suffices haux : ∀ (t acc : List (ResId × String)),
      ((acc ++ t).map (·.1)).Nodup →
      t.foldl (fun acc p => dictUpsert acc p.1 p.2) acc = acc ++ t by
    simpa using haux l []  (by simpa using h)
  intro t
  induction t with
  | nil =>
    intro acc _
    simp [List.foldl]
  | cons p rest ih =>
    intro acc hnd
    have hk : hasKey acc p.1 = false := by
      rw [← Bool.not_eq_true]
      intro hmem
      have h1 := (hasKey_iff acc p.1).mp hmem
      rw [List.map_append, List.nodup_append] at hnd
      exact hnd.2.2 h1 (by simp)
    have hstep : dictUpsert acc p.1 p.2 = acc ++ [p] := by
      unfold dictUpsert
      rw [hk]
      simp
    rw [List.foldl_cons, hstep, ih (acc ++ [p]) (by simpa using hnd)]
    simp

/-- C8: a mutation spec given as an explicit residue map and the same
spec given in string notation produce identical runs — the string form is
normalized (lines 79-80) into exactly the map the dict form carries — so
in particular identical resulting residue-type sequences. -/
theorem mutate_residues_map_vs_strings (eng : Engine) (st : Store) (mid : MolId)
    (ss : List String) (m : List (ResId × String))
    (h : _mut_strs_to_map st mid ss = .ok m) :
    mutate_residues eng st mid (.strs ss) = mutate_residues eng st mid (.rmap m) ∧
    (∀ nid, (mutate_residues eng st mid (.strs ss)).2.2 = .ok nid →
      residueTypeSeq (mutate_residues eng st mid (.strs ss)).1 nid =
        residueTypeSeq (mutate_residues eng st mid (.rmap m)).1 nid) := by
  have hnd : (m.map (·.1)).Nodup := mutStrsGo_nodup st mid ss [] m h (by simp)
  have hpd : pyDictOf m = m := pyDictOf_eq_self m hnd
  have he : mutate_residues eng st mid (.strs ss) =
      mutate_residues eng st mid (.rmap m) := by
    unfold mutate_residues
    rw [show normalizeResidueMap st mid (.strs ss) = .ok m from h,
        show normalizeResidueMap st mid (.rmap m) = .ok (pyDictOf m) from rfl, hpd]
  exact ⟨he, fun nid _ => by rw [he]⟩

/-- C8 witness: the string `"A.2S"` resolves to the map `{ALA2 ↦ SER}`,
and the two input forms give the same run and the same residue-type
sequence on the example molecule. -/
theorem mutate_residues_map_vs_strings_witness :
    mutate_residues EX exStore 0 (.strs ["A.2S"]) =
      mutate_residues EX exStore 0 (.rmap [(0, "SER")]) ∧
    residueTypeSeq (mutate_residues EX exStore 0 (.strs ["A.2S"])).1 2 =
      residueTypeSeq (mutate_residues EX exStore 0 (.rmap [(0, "SER")])).1 2 :=
  ⟨(mutate_residues_map_vs_strings EX exStore 0 ["A.2S"] [(0, "SER")] rfl).1,
   (mutate_residues_map_vs_strings EX exStore 0 ["A.2S"] [(0, "SER")] rfl).2 2 rfl⟩

/-!
### Store bookkeeping lemmas for the mutation pipeline
-/

/-- Two stores with the same molecule table dereference molecules
identically. -/
theorem getMol_congr (st st' : Store) (m : MolId) (h : st'.molsS = st.molsS) :
    getMol st' m = getMol st m := by
  unfold getMol
  rw [h]

/-- Residue counting only reads the molecule table. -/
theorem numResidues_congr (st st' : Store) (m : MolId)
    (h : st'.molsS = st.molsS) : numResidues st' m = numResidues st m := by
  unfold numResidues
  rw [getMol_congr st st' m h]

/-- Membership fact extracted from a successful by-name residue lookup. -/
theorem residueByName_mem (st : Store) (rs : List ResId) (rn : String)
    (r : ResId) (h : residueByName st rs rn = .ok r) : r ∈ rs := by
  unfold residueByName at h
  cases hf : rs.find? (fun x => (getRes st x).rname = rn) with
  | none => rw [hf, keyLookup_none] at h; cases h
  | some a =>
    rw [hf, keyLookup_some] at h
    cases h
    exact List.mem_of_find?_eq_some hf

/-!
### Frame infrastructure

`storeExtends st st'` says that `st'` contains `st` unchanged: every
chain, residue and molecule record that existed in `st` is still at its
id with identical fields; new records may only have been appended.  This
is the formal sense in which an operation leaves all pre-existing
objects — in particular the caller's molecule, its chains, residues,
atoms and bond graphs — untouched.
-/

/-- Store growth that preserves every pre-existing record. -/
def storeExtends (st st' : Store) : Prop :=
  st.chainsS.length ≤ st'.chainsS.length ∧
  st.resS.length ≤ st'.resS.length ∧
  st.molsS.length ≤ st'.molsS.length ∧
  (∀ i, i < st.chainsS.length → st'.chainsS[i]? = st.chainsS[i]?) ∧
  (∀ i, i < st.resS.length → st'.resS[i]? = st.resS[i]?) ∧
  (∀ i, i < st.molsS.length → st'.molsS[i]? = st.molsS[i]?)

/-- Extension is reflexive. -/
theorem storeExtends_refl (st : Store) : storeExtends st st :=
  ⟨Nat.le_refl _, Nat.le_refl _, Nat.le_refl _,
   fun _ _ => rfl, fun _ _ => rfl, fun _ _ => rfl⟩

/-- Extension is transitive. -/
theorem storeExtends_trans {st1 st2 st3 : Store}
    (h12 : storeExtends st1 st2) (h23 : storeExtends st2 st3) :
    storeExtends st1 st3 := by
  obtain ⟨a1, b1, c1, d1, e1, f1⟩ := h12
  obtain ⟨a2, b2, c2, d2, e2, f2⟩ := h23
  exact ⟨Nat.le_trans a1 a2, Nat.le_trans b1 b2, Nat.le_trans c1 c2,
    fun i hi => (d2 i (Nat.lt_of_lt_of_le hi a1)).trans (d1 i hi),
    fun i hi => (e2 i (Nat.lt_of_lt_of_le hi b1)).trans (e1 i hi),
    fun i hi => (f2 i (Nat.lt_of_lt_of_le hi c1)).trans (f1 i hi)⟩

/-- Appending fresh records to every table is an extension. -/
theorem storeExtends_append (st : Store) (a : List ChainData)
    (b : List ResData) (c : List MolData) :
    storeExtends st
      { chainsS := st.chainsS ++ a, resS := st.resS ++ b, molsS := st.molsS ++ c } := by
  refine ⟨?_, ?_, ?_, ?_, ?_, ?_⟩ <;>
    simp only [List.length_append] <;>
    first
      | exact Nat.le_add_right _ _
      | (intro i hi; exact List.getElem?_append_left hi)

/-- Overwriting a residue record at a fresh id preserves extension. -/
theorem storeExtends_setRes {st st' : Store} (r : ResId) (rd : ResData)
    (hext : storeExtends st st') (hr : st.resS.length ≤ r) :
    storeExtends st (setRes st' r rd) := by
  obtain ⟨a, b, c, d, e, f⟩ := hext
  refine ⟨a, ?_, c, d, ?_, f⟩
  · show st.resS.length ≤ (st'.resS.set r rd).length
    rw [List.length_set]
    exact b
  · intro i hi
    show (st'.resS.set r rd)[i]? = st.resS[i]?
    rw [List.getElem?_set_ne (by omega)]
    exact e i hi

/-- Overwriting a chain record at a fresh id preserves extension. -/
theorem storeExtends_setChain {st st' : Store} (c : ChainId) (cd : ChainData)
    (hext : storeExtends st st') (hc : st.chainsS.length ≤ c) :
    storeExtends st (setChain st' c cd) := by
  obtain ⟨a, b, c', d, e, f⟩ := hext
  refine ⟨?_, b, c', ?_, e, f⟩
  · show st.chainsS.length ≤ (st'.chainsS.set c cd).length
    rw [List.length_set]
    exact a
  · intro i hi
    show (st'.chainsS.set c cd)[i]? = st.chainsS[i]?
    rw [List.getElem?_set_ne (by omega)]
    exact d i hi

/-- Materializing an engine output only appends. -/
theorem topology_to_mol_extends (st : Store) (em : EngMol) (nm : String) :
    storeExtends st (topology_to_mol st em nm).1 :=
  storeExtends_append st _ _ _

/-- The materialized molecule is entirely fresh: its id, chain ids and
residue ids are all beyond the original store. -/
theorem topology_to_mol_fresh (st : Store) (em : EngMol) (nm : String) :
    (topology_to_mol st em nm).2 = st.molsS.length ∧
    (∀ c ∈ (getMol (topology_to_mol st em nm).1 (topology_to_mol st em nm).2).chains,
      st.chainsS.length ≤ c) ∧
    (∀ r ∈ (getMol (topology_to_mol st em nm).1 (topology_to_mol st em nm).2).residues,
      st.resS.length ≤ r) := by
  refine ⟨rfl, ?_, ?_⟩
  · unfold topology_to_mol getMol
    rw [List.getD_append_right _ _ _ _ (Nat.le_refl _)]
    simp only [Nat.sub_self, List.getD, List.get?_cons_zero, Option.getD_some]
    intro x hx
    rw [List.mem_map] at hx
    obtain ⟨i, hir, rfl⟩ := hx
    show st.chainsS.length ≤ st.chainsS.length + i
    omega
  · unfold topology_to_mol getMol
    rw [List.getD_append_right _ _ _ _ (Nat.le_refl _)]
    simp only [Nat.sub_self, List.getD, List.get?_cons_zero, Option.getD_some]
    intro x hx
    rw [List.mem_map] at hx
    obtain ⟨i, hir, rfl⟩ := hx
    show st.resS.length ≤ st.resS.length + i
    omega

/-- The constructed molecule is entirely fresh, and construction only
appends. -/
theorem Molecule_new_fresh (st : Store) (comps : List Component) (nm : String)
    (md : List (String × MetaVal)) :
    (Molecule.new st comps nm md).2 = st.molsS.length ∧
    (∀ c ∈ (getMol (Molecule.new st comps nm md).1 (Molecule.new st comps nm md).2).chains,
      st.chainsS.length ≤ c) ∧
    (∀ r ∈ (getMol (Molecule.new st comps nm md).1 (Molecule.new st comps nm md).2).residues,
      st.resS.length ≤ r) ∧
    storeExtends st (Molecule.new st comps nm md).1 := by
  refine ⟨rfl, ?_, ?_, storeExtends_append st _ _ _⟩
  · unfold Molecule.new getMol
    rw [List.getD_append_right _ _ _ _ (Nat.le_refl _)]
    simp only [Nat.sub_self, List.getD, List.get?_cons_zero, Option.getD_some]
    intro x hx
    rw [List.mem_map] at hx
    obtain ⟨i, hir, rfl⟩ := hx
    show st.chainsS.length ≤ st.chainsS.length + i
    omega
  · unfold Molecule.new getMol
    rw [List.getD_append_right _ _ _ _ (Nat.le_refl _)]
    simp only [Nat.sub_self, List.getD, List.get?_cons_zero, Option.getD_some]
    intro x hx
    rw [List.mem_map] at hx
    obtain ⟨i, hir, rfl⟩ := hx
    show st.resS.length ≤ st.resS.length + i
    omega

/-- Chain-name normalization preserves extension when the normalized
molecule's chains are all fresh. -/
theorem chainnames_to_letter_extends (st0 : Store) (st : Store) (mid : MolId)
    (hext : storeExtends st0 st)
    (hch : ∀ c ∈ (getMol st mid).chains, st0.chainsS.length ≤ c) :
    storeExtends st0 (_pdbfixer_chainnames_to_letter st mid) := by
  unfold _pdbfixer_chainnames_to_letter
  revert hch
  generalize (getMol st mid).chains = l
  intro hch
  induction l generalizing st with
  | nil => exact hext
  | cons c rest ih =>
    rw [List.foldl_cons]
    exact ih _ (storeExtends_setChain c _ hext (hch c (by simp)))
      (fun x hx => hch x (by simp [hx]))

/-- The reconciliation fold preserves extension when every grafted temp
residue is fresh. -/
theorem graftFold_extends (st0 : Store) (rmap : List (ResId × String)) :
    ∀ (pairs : List (ResId × ResId)) (g : GraftState),
      storeExtends st0 g.st →
      (∀ pr ∈ pairs, st0.resS.length ≤ pr.2) →
      storeExtends st0 ((pairs.foldl (graftStep rmap) g).st) := by
  intro pairs
  induction pairs with
  | nil => intro g hext _; exact hext
  | cons p rest ih =>
    intro g hext hfr
    rw [List.foldl_cons]
    refine ih _ ?_ (fun x hx => hfr x (by simp [hx]))
    unfold graftStep
    split
    · exact storeExtends_setRes _ _ hext (hfr p (by simp))
    · exact hext


/-- Properties of one successful bond-repair step: the chain and molecule
tables are untouched and, when the repaired molecule is fresh, extension
is preserved (the two residue-record writes target fresh ids). -/
theorem repairOne_ok_props (st0 st st2 : Store) (newId : MolId)
    (b : AtomRef × AtomRef × Nat) (h : repairOne st newId b = .ok st2) :
    st2.molsS = st.molsS ∧ st2.chainsS = st.chainsS ∧
    (storeExtends st0 st →
      (∀ r ∈ (getMol st newId).residues, st0.resS.length ≤ r) →
      storeExtends st0 st2) := by
  unfold repairOne at h
  cases h1 : chainByName st newId (getChain st (getRes st b.1.1).chain).cname with
  | error e =>
    rw [h1, exceptCase_error] at h
    cases h
  | ok cid =>
    rw [h1, exceptCase_ok] at h
    cases h2 : residueByName st (chainResidues st newId cid) (getRes st b.1.1).rname with
    | error e =>
      rw [h2, exceptCase_error] at h
      cases h
    | ok nr =>
      rw [h2, exceptCase_ok] at h
      cases h3 : residueByName st (chainResidues st newId cid) (getRes st b.2.1.1).rname with
      | error e =>
        rw [h3, exceptCase_error] at h
        cases h
      | ok nmr =>
        rw [h3, exceptCase_ok] at h
        cases h4 : atomByName (getRes st nr) b.1.2 with
        | error e =>
          rw [h4, exceptCase_error] at h
          cases h
        | ok na =>
          rw [h4, exceptCase_ok] at h
          cases h5 : atomByName (getRes st nmr) b.2.1.2 with
          | error e =>
            rw [h5, exceptCase_error] at h
            cases h
          | ok nma =>
            rw [h5, exceptCase_ok] at h
            cases h
            refine ⟨rfl, rfl, fun hext hfr => ?_⟩
            have hnrm : nr ∈ (getMol st newId).residues :=
              (List.mem_filter.mp (residueByName_mem _ _ _ _ h2)).1
            have hnmrm : nmr ∈ (getMol st newId).residues :=
              (List.mem_filter.mp (residueByName_mem _ _ _ _ h3)).1
            exact storeExtends_setRes _ _
              (storeExtends_setRes _ _ hext (hfr nr hnrm)) (hfr nmr hnmrm)

/-- Bond repair never touches the molecule table. -/
theorem repairBonds_molsS (newId : MolId) :
    ∀ (bonds : List (AtomRef × AtomRef × Nat)) (st : Store),
      (repairBonds st newId bonds).1.molsS = st.molsS := by
  intro bonds
  induction bonds with
  | nil => intro st; rfl
  | cons b rest ih =>
    intro st
    unfold repairBonds
    cases hro : repairOne st newId b with
    | error e => rw [exceptCase_error]
    | ok st2 =>
      rw [exceptCase_ok, ih st2]
      exact (repairOne_ok_props st st st2 newId b hro).1

/-- Bond repair preserves extension when the repaired molecule's residues
are all fresh. -/
theorem repairBonds_extends (st0 : Store) (newId : MolId) :
    ∀ (bonds : List (AtomRef × AtomRef × Nat)) (st : Store),
      storeExtends st0 st →
      (∀ r ∈ (getMol st newId).residues, st0.resS.length ≤ r) →
      storeExtends st0 (repairBonds st newId bonds).1 := by
  intro bonds
  induction bonds with
  | nil => intro st hext _; exact hext
  | cons b rest ih =>
    intro st hext hfr
    unfold repairBonds
    cases hro : repairOne st newId b with
    | error e =>
      rw [exceptCase_error]
      exact hext
    | ok st2 =>
      rw [exceptCase_ok]
      obtain ⟨hm, -, hex⟩ := repairOne_ok_props st0 st st2 newId b hro
      exact ih st2 (hex hext hfr)
        (fun r hr => hfr r (by rwa [getMol_congr _ _ _ hm] at hr))

/-- Chain-name normalization never touches the molecule table. -/
theorem chainnames_to_letter_molsS (st : Store) (mid : MolId) :
    (_pdbfixer_chainnames_to_letter st mid).molsS = st.molsS := by
  unfold _pdbfixer_chainnames_to_letter
  generalize (getMol st mid).chains = l
  induction l generalizing st with
  | nil => rfl
  | cons c rest ih =>
    rw [List.foldl_cons, ih]
    rfl

/-- Chain-name normalization never touches the residue table. -/
theorem chainnames_to_letter_resS (st : Store) (mid : MolId) :
    (_pdbfixer_chainnames_to_letter st mid).resS = st.resS := by
  unfold _pdbfixer_chainnames_to_letter
  generalize (getMol st mid).chains = l
  induction l generalizing st with
  | nil => rfl
  | cons c rest ih =>
    rw [List.foldl_cons, ih]
    rfl

/-- Dereferencing an existing molecule is unaffected by materializing an
engine output. -/
theorem topology_to_mol_getMol_lt (st : Store) (em : EngMol) (nm : String)
    (m : MolId) (hm : m < st.molsS.length) :
    getMol (topology_to_mol st em nm).1 m = getMol st m := by
  unfold topology_to_mol getMol
  exact List.getD_append _ _ _ _ hm

/-- The materialized engine output has exactly the engine's residues. -/
theorem topology_to_mol_numResidues (st : Store) (em : EngMol) (nm : String) :
    numResidues (topology_to_mol st em nm).1 (topology_to_mol st em nm).2 =
      em.residues.length := by
  unfold topology_to_mol numResidues getMol
  rw [List.getD_append_right _ _ _ _ (Nat.le_refl _)]
  simp

/-- The reconciliation fold never touches the molecule table. -/
theorem graftFold_molsS (rmap : List (ResId × String)) :
    ∀ (pairs : List (ResId × ResId)) (g : GraftState),
      ((pairs.foldl (graftStep rmap) g).st).molsS = g.st.molsS := by
  intro pairs
  induction pairs with
  | nil => intro g; rfl
  | cons p rest ih =>
    intro g
    rw [List.foldl_cons, ih]
    unfold graftStep
    split <;> rfl

/-- The reconciliation fold copies exactly one residue per zipped pair. -/
theorem graftFold_toCopy_length (rmap : List (ResId × String)) :
    ∀ (pairs : List (ResId × ResId)) (g : GraftState),
      (pairs.foldl (graftStep rmap) g).toCopy.length =
        g.toCopy.length + pairs.length := by
  intro pairs
  induction pairs with
  | nil => intro g; simp
  | cons p rest ih =>
    intro g
    rw [List.foldl_cons, ih]
    have hstep : (graftStep rmap g p).toCopy.length = g.toCopy.length + 1 := by
      unfold graftStep
      split <;> simp
    rw [hstep]
    simp only [List.length_cons]
    omega

/-- Flattening residue components is the identity. -/
theorem flattenComps_map_res (st : Store) (l : List ResId) :
    flattenComps st (l.map Component.res) = l := by
  induction l with
  | nil => rfl
  | cons r rest ih =>
    rw [List.map_cons]
    unfold flattenComps
    rw [ih]

/-- The constructed molecule has one residue per flattened component. -/
theorem Molecule_new_numResidues (st : Store) (comps : List Component)
    (nm : String) (md : List (String × MetaVal)) :
    numResidues (Molecule.new st comps nm md).1 (Molecule.new st comps nm md).2 =
      (flattenComps st comps).length := by
  unfold Molecule.new numResidues getMol
  rw [List.getD_append_right _ _ _ _ (Nat.le_refl _)]
  simp

/-- The normalized temp mutant still has the original molecule where it
was. -/
theorem mutFixed_numResidues_mid (eng : Engine) (st : Store) (mid : MolId)
    (rmap : List (ResId × String)) (hm : mid < st.molsS.length) :
    numResidues (mutFixed eng st mid rmap) mid = numResidues st mid := by
  unfold mutFixed
  rw [numResidues_congr _ _ _ (chainnames_to_letter_molsS _ _)]
  unfold mutTemp numResidues
  rw [topology_to_mol_getMol_lt _ _ _ _ hm]

/-- The normalized temp mutant has exactly the engine output's residue
count. -/
theorem mutFixed_numResidues_temp (eng : Engine) (st : Store) (mid : MolId)
    (rmap : List (ResId × String)) :
    numResidues (mutFixed eng st mid rmap) (mutTemp eng st mid rmap).2 =
      (eng.mutOut st mid (mutApplications st rmap)).residues.length := by
  unfold mutFixed
  rw [numResidues_congr _ _ _ (chainnames_to_letter_molsS _ _)]
  exact topology_to_mol_numResidues _ _ _

/-- C1: a successful `mutate_residues` returns a molecule with exactly
the residue count of the input molecule; and whenever the external
engine's output changes the residue count, the call fails with the fatal
assertion of line 98 instead of returning. -/
theorem mutate_residues_residue_count (eng : Engine) (st : Store) (mid : MolId)
    (arg : ResidueMapArg) (hm : mid < st.molsS.length) :
    (∀ nid, (mutate_residues eng st mid arg).2.2 = .ok nid →
      numResidues (mutate_residues eng st mid arg).1 nid = numResidues st mid) ∧
    (∀ rmap, normalizeResidueMap st mid arg = .ok rmap → rmap ≠ [] →
      (eng.mutOut st mid (mutApplications st rmap)).residues.length ≠
        numResidues st mid →
      (mutate_residues eng st mid arg).2.2 =
        .error (.assertionError "mutation changed residue count")) := by
  constructor
  · intro nid hok
    unfold mutate_residues at hok ⊢
    cases hnorm : normalizeResidueMap st mid arg with
    | error e =>
      rw [hnorm, exceptCase_error] at hok
      simp at hok
    | ok rmap =>
      rw [hnorm] at hok
      rw [exceptCase_ok] at hok ⊢
      by_cases hemp : rmap.isEmpty
      · rw [if_pos hemp] at hok
        simp at hok
      · rw [if_neg hemp] at hok ⊢
        unfold mutateCore at hok ⊢
        by_cases hcnt : numResidues (mutFixed eng st mid rmap)
            (mutTemp eng st mid rmap).2 = numResidues (mutFixed eng st mid rmap) mid
        · rw [if_pos hcnt] at hok ⊢
          cases hcb : collectOrigBonds (mutGraft eng st mid rmap).st rmap
              (mutGraft eng st mid rmap).oldMap (mutGraft eng st mid rmap).toCopy with
          | error e =>
            rw [hcb, exceptCase_error] at hok
            simp at hok
          | ok origBonds =>
            rw [hcb] at hok
            rw [exceptCase_ok] at hok ⊢
            cases hrp : (repairBonds (mutNew eng st mid rmap).1
                (mutNew eng st mid rmap).2 origBonds).2 with
            | error e =>
              rw [hrp, exceptCase_error] at hok
              simp at hok
            | ok u =>
              rw [hrp] at hok
              rw [exceptCase_ok] at hok ⊢
              simp only [Except.ok.injEq] at hok
              rw [← hok]
              rw [numResidues_congr _ _ _ (repairBonds_molsS _ _ _)]
              unfold mutNew
              rw [Molecule_new_numResidues, flattenComps_map_res]
              unfold mutGraft
              rw [graftFold_toCopy_length]
              simp only [List.length_nil, Nat.zero_add, List.length_zip]
              rw [show (getMol (mutFixed eng st mid rmap)
                  (mutTemp eng st mid rmap).2).residues.length =
                  numResidues (mutFixed eng st mid rmap) mid from hcnt]
              rw [show (getMol (mutFixed eng st mid rmap) mid).residues.length =
                  numResidues (mutFixed eng st mid rmap) mid from rfl]
              rw [Nat.min_self]
              exact mutFixed_numResidues_mid eng st mid rmap hm
        · rw [if_neg hcnt] at hok
          simp at hok
  · intro rmap hnorm hne hcnt
    unfold mutate_residues
    rw [hnorm, exceptCase_ok]
    rw [if_neg (by simpa using hne)]
    unfold mutateCore
    rw [if_neg ?hc]
    case hc =>
      rw [mutFixed_numResidues_temp, mutFixed_numResidues_mid eng st mid rmap hm]
      exact hcnt

/-- C1 witness: the example mutation succeeds with 3 residues before and
after; the misbehaving engine that drops a residue makes the same call
fail with the count assertion. -/
theorem mutate_residues_residue_count_witness :
    numResidues (mutate_residues EX exStore 0 (.rmap [(0, "SER")])).1 2 =
      numResidues exStore 0 ∧
    (mutate_residues EXbad exStore 0 (.rmap [(0, "SER")])).2.2 =
      .error (.assertionError "mutation changed residue count") :=
  ⟨(mutate_residues_residue_count EX exStore 0 (.rmap [(0, "SER")])
      (by decide)).1 2 rfl,
   (mutate_residues_residue_count EXbad exStore 0 (.rmap [(0, "SER")])
      (by decide)).2 [(0, "SER")] rfl (by decide) (by decide)⟩

/-- The normalized temp mutant store extends the original store. -/
theorem mutFixed_extends (eng : Engine) (st : Store) (mid : MolId)
    (rmap : List (ResId × String)) :
    storeExtends st (mutFixed eng st mid rmap) := by
  unfold mutFixed mutTemp
  exact chainnames_to_letter_extends st _ _ (topology_to_mol_extends st _ _)
    (topology_to_mol_fresh st _ _).2.1

/-- The temp mutant's residues are fresh ids. -/
theorem mutFixed_temp_residues_fresh (eng : Engine) (st : Store) (mid : MolId)
    (rmap : List (ResId × String)) :
    ∀ r ∈ (getMol (mutFixed eng st mid rmap) (mutTemp eng st mid rmap).2).residues,
      st.resS.length ≤ r := by
  intro r hr
  rw [getMol_congr _ _ _ (by unfold mutFixed; exact chainnames_to_letter_molsS _ _)] at hr
  exact (topology_to_mol_fresh st _ _).2.2 r hr

/-- The reconciliation stage extends the original store. -/
theorem mutGraft_extends (eng : Engine) (st : Store) (mid : MolId)
    (rmap : List (ResId × String)) :
    storeExtends st (mutGraft eng st mid rmap).st := by
  unfold mutGraft
  refine graftFold_extends st rmap _ _ (mutFixed_extends eng st mid rmap) ?_
  intro pr hpr
  exact mutFixed_temp_residues_fresh eng st mid rmap pr.2 (List.of_mem_zip hpr).2

/-- The constructed mutant extends the original store, its molecule id is
fresh, and its chains and residues are fresh. -/
theorem mutNew_fresh (eng : Engine) (st : Store) (mid : MolId)
    (rmap : List (ResId × String)) :
    storeExtends st (mutNew eng st mid rmap).1 ∧
    st.molsS.length ≤ (mutNew eng st mid rmap).2 ∧
    (∀ r ∈ (getMol (mutNew eng st mid rmap).1 (mutNew eng st mid rmap).2).residues,
      st.resS.length ≤ r) ∧
    (∀ c ∈ (getMol (mutNew eng st mid rmap).1 (mutNew eng st mid rmap).2).chains,
      st.chainsS.length ≤ c) := by
  have hg := mutGraft_extends eng st mid rmap
  have hnf := Molecule_new_fresh (mutGraft eng st mid rmap).st
    ((mutGraft eng st mid rmap).toCopy.map Component.res)
    ("Mutant of \"" ++ (getMol (mutGraft eng st mid rmap).st mid).mname ++ "\"")
    [("origin", MetaVal.mmap (getMol (mutGraft eng st mid rmap).st mid).metadata),
     ("mutations", MetaVal.mlist (rmap.map (fun p => _mutation_as_str st p.1 p.2)))]
  refine ⟨storeExtends_trans hg hnf.2.2.2, ?_, ?_, ?_⟩
  · rw [show (mutNew eng st mid rmap).2 = (mutGraft eng st mid rmap).st.molsS.length
      from hnf.1]
    exact hg.2.2.1
  · intro r hr
    exact Nat.le_trans hg.2.1 (hnf.2.2.1 r hr)
  · intro c hc
    exact Nat.le_trans hg.1 (hnf.2.1 c hc)

/-- C2: neither `mutate_residues` nor `add_water` modifies any
pre-existing record — in particular the caller's molecule, its chains,
residues, atoms and bond graphs are untouched in the final store — and a
successfully returned molecule is entirely newly constructed: its id, its
residue ids and its chain ids all lie beyond the original store. -/
theorem mutation_and_solvation_frame (eng : Engine) (st : Store) (mid : MolId)
    (arg : ResidueMapArg) (minB : Option BoxSpec) (pad : Option ℚ)
    (conc : ℚ) (neut : Bool) (pos neg : String) :
    storeExtends st (mutate_residues eng st mid arg).1 ∧
    (∀ nid, (mutate_residues eng st mid arg).2.2 = .ok nid →
      st.molsS.length ≤ nid ∧
      (∀ r ∈ (getMol (mutate_residues eng st mid arg).1 nid).residues,
        st.resS.length ≤ r) ∧
      (∀ c ∈ (getMol (mutate_residues eng st mid arg).1 nid).chains,
        st.chainsS.length ≤ c)) ∧
    storeExtends st (add_water eng st mid minB pad conc neut pos neg).1 ∧
    (∀ nid, (add_water eng st mid minB pad conc neut pos neg).2.2 = .ok nid →
      st.molsS.length ≤ nid ∧
      (∀ r ∈ (getMol (add_water eng st mid minB pad conc neut pos neg).1 nid).residues,
        st.resS.length ≤ r) ∧
      (∀ c ∈ (getMol (add_water eng st mid minB pad conc neut pos neg).1 nid).chains,
        st.chainsS.length ≤ c)) := by
  refine ⟨?_, ?_, ?_, ?_⟩
  · unfold mutate_residues
    cases hnorm : normalizeResidueMap st mid arg with
    | error e =>
      rw [exceptCase_error]
      exact storeExtends_refl st
    | ok rmap =>
      rw [exceptCase_ok]
      by_cases hemp : rmap.isEmpty
      · rw [if_pos hemp]
        exact storeExtends_refl st
      · rw [if_neg hemp]
        unfold mutateCore
        split
        · cases hcb : collectOrigBonds (mutGraft eng st mid rmap).st rmap
              (mutGraft eng st mid rmap).oldMap (mutGraft eng st mid rmap).toCopy with
          | error e =>
            rw [exceptCase_error]
            exact mutGraft_extends eng st mid rmap
          | ok origBonds =>
            rw [exceptCase_ok]
            have hrb := repairBonds_extends st (mutNew eng st mid rmap).2 origBonds
              (mutNew eng st mid rmap).1 (mutNew_fresh eng st mid rmap).1
              (mutNew_fresh eng st mid rmap).2.2.1
            cases hrp : (repairBonds (mutNew eng st mid rmap).1
                (mutNew eng st mid rmap).2 origBonds).2 with
            | error e =>
              rw [exceptCase_error]
              exact hrb
            | ok u =>
              rw [exceptCase_ok]
              exact hrb
        · exact mutFixed_extends eng st mid rmap
  · intro nid hok
    unfold mutate_residues at hok ⊢
    cases hnorm : normalizeResidueMap st mid arg with
    | error e =>
      rw [hnorm, exceptCase_error] at hok
      simp at hok
    | ok rmap =>
      rw [hnorm] at hok
      rw [exceptCase_ok] at hok ⊢
      by_cases hemp : rmap.isEmpty
      · rw [if_pos hemp] at hok
        simp at hok
      · rw [if_neg hemp] at hok ⊢
        unfold mutateCore at hok ⊢
        by_cases hcnt : numResidues (mutFixed eng st mid rmap)
            (mutTemp eng st mid rmap).2 = numResidues (mutFixed eng st mid rmap) mid
        · rw [if_pos hcnt] at hok ⊢
          cases hcb : collectOrigBonds (mutGraft eng st mid rmap).st rmap
              (mutGraft eng st mid rmap).oldMap (mutGraft eng st mid rmap).toCopy with
          | error e =>
            rw [hcb, exceptCase_error] at hok
            simp at hok
          | ok origBonds =>
            rw [hcb] at hok
            rw [exceptCase_ok] at hok ⊢
            cases hrp : (repairBonds (mutNew eng st mid rmap).1
                (mutNew eng st mid rmap).2 origBonds).2 with
            | error e =>
              rw [hrp, exceptCase_error] at hok
              simp at hok
            | ok u =>
              rw [hrp] at hok
              rw [exceptCase_ok] at hok ⊢
              simp only [Except.ok.injEq] at hok
              subst hok
              have hmols : (repairBonds (mutNew eng st mid rmap).1
                  (mutNew eng st mid rmap).2 origBonds).1.molsS =
                  (mutNew eng st mid rmap).1.molsS :=
                repairBonds_molsS _ _ _
              rw [getMol_congr _ _ _ hmols]
              exact ⟨(mutNew_fresh eng st mid rmap).2.1,
                (mutNew_fresh eng st mid rmap).2.2.1,
                (mutNew_fresh eng st mid rmap).2.2.2⟩
        · rw [if_neg hcnt] at hok
          simp at hok
  · unfold add_water
    split
    · exact storeExtends_refl st
    · cases hion : normIonPair pos neg with
      | error e =>
        rw [exceptCase_error]
        exact storeExtends_refl st
      | ok pr =>
        rw [exceptCase_ok]
        cases hbox : computeBoxsize minB pad (positionsOf st mid) with
        | error e =>
          rw [exceptCase_error]
          exact storeExtends_refl st
        | ok box =>
          rw [exceptCase_ok]
          unfold solvCore
          have hext3 : storeExtends st (solvNew eng st mid
              ⟨box, pr.1, pr.2, conc, neut⟩).1 := by
            unfold solvNew
            refine storeExtends_trans ?_ (Molecule_new_fresh _ _ _ _).2.2.2
            unfold solvFixed solvTemp
            exact chainnames_to_letter_extends st _ _
              (topology_to_mol_extends st _ _) (topology_to_mol_fresh st _ _).2.1
          split
          · split
            · exact hext3
            · exact hext3
          · exact hext3
  · intro nid hok
    unfold add_water at hok ⊢
    by_cases hv : pad = none ∧ minB = none
    · rw [if_pos hv] at hok
      simp at hok
    · rw [if_neg hv] at hok ⊢
      cases hion : normIonPair pos neg with
      | error e =>
        rw [hion, exceptCase_error] at hok
        simp at hok
      | ok pr =>
        rw [hion] at hok
        rw [exceptCase_ok] at hok ⊢
        cases hbox : computeBoxsize minB pad (positionsOf st mid) with
        | error e =>
          rw [hbox, exceptCase_error] at hok
          simp at hok
        | ok box =>
          rw [hbox] at hok
          rw [exceptCase_ok] at hok ⊢
          unfold solvCore at hok ⊢
          have hsf : storeExtends st (solvFixed eng st mid
              ⟨box, pr.1, pr.2, conc, neut⟩) := by
            unfold solvFixed solvTemp
            exact chainnames_to_letter_extends st _ _
              (topology_to_mol_extends st _ _) (topology_to_mol_fresh st _ _).2.1
          have hnf := Molecule_new_fresh (solvFixed eng st mid
              ⟨box, pr.1, pr.2, conc, neut⟩)
            (Component.mol mid ::
              ((getMol (solvFixed eng st mid ⟨box, pr.1, pr.2, conc, neut⟩)
                (solvTemp eng st mid ⟨box, pr.1, pr.2, conc, neut⟩).2).residues.drop
                  (numResidues (solvFixed eng st mid ⟨box, pr.1, pr.2, conc, neut⟩) mid)).map
                Component.res)
            ("Solvated " ++ (getMol (solvFixed eng st mid
              ⟨box, pr.1, pr.2, conc, neut⟩) mid).mname)
            [("origin", MetaVal.mmap (getMol (solvFixed eng st mid
              ⟨box, pr.1, pr.2, conc, neut⟩) mid).metadata)]
          by_cases h1 : numAtoms (solvNew eng st mid ⟨box, pr.1, pr.2, conc, neut⟩).1
              (solvNew eng st mid ⟨box, pr.1, pr.2, conc, neut⟩).2 =
              numAtoms (solvNew eng st mid ⟨box, pr.1, pr.2, conc, neut⟩).1
              (solvTemp eng st mid ⟨box, pr.1, pr.2, conc, neut⟩).2
          · rw [if_pos h1] at hok ⊢
            by_cases h2 : numResidues (solvNew eng st mid ⟨box, pr.1, pr.2, conc, neut⟩).1
                (solvNew eng st mid ⟨box, pr.1, pr.2, conc, neut⟩).2 =
                numResidues (solvNew eng st mid ⟨box, pr.1, pr.2, conc, neut⟩).1
                (solvTemp eng st mid ⟨box, pr.1, pr.2, conc, neut⟩).2
            · rw [if_pos h2] at hok ⊢
              simp only [Except.ok.injEq] at hok
              subst hok
              refine ⟨?_, ?_, ?_⟩
              · rw [show (solvNew eng st mid ⟨box, pr.1, pr.2, conc, neut⟩).2 =
                    (solvFixed eng st mid ⟨box, pr.1, pr.2, conc, neut⟩).molsS.length
                  from hnf.1]
                exact hsf.2.2.1
              · intro r hr
                exact Nat.le_trans hsf.2.1 (hnf.2.2.1 r hr)
              · intro c hc
                exact Nat.le_trans hsf.1 (hnf.2.1 c hc)
            · rw [if_neg h2] at hok
              simp at hok
          · rw [if_neg h1] at hok
            simp at hok

/-- C2 witness: on the example store, the mutation and solvation runs
both extend the store, and the returned molecule 2 of each run has only
fresh residue and chain ids. -/
theorem mutation_and_solvation_frame_witness :
    storeExtends exStore (mutate_residues EX exStore 0 (.rmap [(0, "SER")])).1 ∧
    (exStore.molsS.length ≤ 2 ∧
      (∀ r ∈ (getMol (mutate_residues EX exStore 0 (.rmap [(0, "SER")])).1 2).residues,
        exStore.resS.length ≤ r) ∧
      (∀ c ∈ (getMol (mutate_residues EX exStore 0 (.rmap [(0, "SER")])).1 2).chains,
        exStore.chainsS.length ≤ c)) ∧
    storeExtends exStore
      (add_water EX exStore 0 (some (.scalar 20)) none 0 true "Na+" "Cl-").1 ∧
    (exStore.molsS.length ≤ 2 ∧
      (∀ r ∈ (getMol (add_water EX exStore 0 (some (.scalar 20)) none 0 true
          "Na+" "Cl-").1 2).residues, exStore.resS.length ≤ r) ∧
      (∀ c ∈ (getMol (add_water EX exStore 0 (some (.scalar 20)) none 0 true
          "Na+" "Cl-").1 2).chains, exStore.chainsS.length ≤ c)) := by
  have h := mutation_and_solvation_frame EX exStore 0 (.rmap [(0, "SER")])
    (some (.scalar 20)) none 0 true "Na+" "Cl-"
  exact ⟨h.1, h.2.1 2 rfl, h.2.2.1, h.2.2.2 2 rfl⟩

/-!
### Count and content lemmas for solvation
-/

/-- Mapping a function over defaulted indexing of a list by its range. -/
theorem map_range_getD {α β : Type} (l : List α) (d : α) (g : α → β) :
    (List.range l.length).map (fun i => g (l.getD i d)) = l.map g := by
  refine List.ext_getElem (by simp) ?_
  intro i h1 h2
  simp only [List.getElem_map, List.getElem_range]
  rw [List.getD_eq_getElem l d (by simpa using h2)]

/-- Atom counting reads only the molecule and residue tables. -/
theorem numAtoms_congr (st st' : Store) (m : MolId)
    (hm : st'.molsS = st.molsS) (hr : st'.resS = st.resS) :
    numAtoms st' m = numAtoms st m := by
  unfold numAtoms getRes
  rw [getMol_congr _ _ _ hm, hr]

/-- Content projection reads only the residue table. -/
theorem resContent_congr (st st' : Store) (r : ResId)
    (hr : st'.resS = st.resS) : resContent st' r = resContent st r := by
  unfold resContent getRes
  rw [hr]

/-- Dereferencing a pre-existing residue is unaffected by an extension. -/
theorem getRes_of_extends {st st' : Store} (r : ResId)
    (hext : storeExtends st st') (hr : r < st.resS.length) :
    getRes st' r = getRes st r := by
  unfold getRes
  rw [List.getD_eq_getD_get?, List.getD_eq_getD_get?, List.get?_eq_getElem?,
    List.get?_eq_getElem?, hext.2.2.2.2.1 r hr]

/-- Residue ids of a materialized engine output are in range. -/
theorem topology_to_mol_residues_lt (st : Store) (em : EngMol) (nm : String) :
    ∀ r ∈ (getMol (topology_to_mol st em nm).1 (topology_to_mol st em nm).2).residues,
      r < (topology_to_mol st em nm).1.resS.length := by
  unfold topology_to_mol getMol
  rw [List.getD_append_right _ _ _ _ (Nat.le_refl _)]
  simp only [Nat.sub_self, List.getD, List.get?_cons_zero, Option.getD_some]
  intro x hx
  rw [List.mem_map] at hx
  obtain ⟨i, hir, rfl⟩ := hx
  rw [List.mem_range] at hir
  have hb : st.resS.length + i < st.resS.length + em.residues.length := by omega
  simpa using hb

/-- The materialized molecule's residue-id list. -/
theorem topology_to_mol_residues_eq (st : Store) (em : EngMol) (nm : String) :
    (getMol (topology_to_mol st em nm).1 (topology_to_mol st em nm).2).residues =
      (List.range em.residues.length).map (fun i => st.resS.length + i) := by
  unfold topology_to_mol getMol
  rw [List.getD_append_right _ _ _ _ (Nat.le_refl _)]
  simp only [Nat.sub_self, List.getD, List.get?_cons_zero, Option.getD_some]

/-- The constructed molecule's residue-id list. -/
theorem Molecule_new_residues_eq (st : Store) (comps : List Component)
    (nm : String) (md : List (String × MetaVal)) :
    (getMol (Molecule.new st comps nm md).1 (Molecule.new st comps nm md).2).residues =
      (List.range (flattenComps st comps).length).map (fun i => st.resS.length + i) := by
  unfold Molecule.new getMol
  rw [List.getD_append_right _ _ _ _ (Nat.le_refl _)]
  simp only [Nat.sub_self, List.getD, List.get?_cons_zero, Option.getD_some]

/-- Content of a materialized engine residue. -/
theorem engResToResData_content (cbase rbase mid : Nat) (cnames : List String)
    (er : EngRes) :
    resDataContent (engResToResData cbase rbase mid cnames er) =
      engResContent er := by
  unfold resDataContent engResToResData engResContent
  simp only [List.map_map]
  rfl

/-- Content of a constructor-copied residue. -/
theorem copyResData_content (st : Store) (rbase cbase mid : Nat)
    (src : List ResId) (cnames : List String) (r : ResId) :
    resDataContent (copyResData st rbase cbase mid src cnames r) =
      resContent st r := by
  unfold resDataContent copyResData resContent resDataContent
  simp only [List.map_map]
  rfl

/-- Residue records of a materialized engine output, by position. -/
theorem topology_to_mol_getRes_at (st : Store) (em : EngMol) (nm : String)
    (i : Nat) (hi : i < em.residues.length) :
    getRes (topology_to_mol st em nm).1 (st.resS.length + i) =
      engResToResData st.chainsS.length st.resS.length st.molsS.length
        (distinctFirsts (em.residues.map (·.chainName))) em.residues[i] := by
  unfold topology_to_mol getRes
  rw [List.getD_append_right _ _ _ _ (Nat.le_add_right _ _)]
  rw [Nat.add_sub_cancel_left]
  rw [List.getD_eq_getElem _ _ (by simpa using hi)]
  rw [List.getElem_map]

/-- Residue records of a constructed molecule, by position. -/
theorem Molecule_new_getRes_at (st : Store) (comps : List Component)
    (nm : String) (md : List (String × MetaVal)) (i : Nat)
    (hi : i < (flattenComps st comps).length) :
    getRes (Molecule.new st comps nm md).1 (st.resS.length + i) =
      copyResData st st.resS.length st.chainsS.length st.molsS.length
        (flattenComps st comps)
        (distinctFirsts ((flattenComps st comps).map (chainNameOfRes st)))
        (flattenComps st comps)[i] := by
  unfold Molecule.new getRes
  rw [List.getD_append_right _ _ _ _ (Nat.le_add_right _ _)]
  rw [Nat.add_sub_cancel_left]
  rw [List.getD_eq_getElem _ _ (by simpa using hi)]
  rw [List.getElem_map]

/-- Contents of the materialized engine output are the engine contents. -/
theorem topology_to_mol_contents (st : Store) (em : EngMol) (nm : String) :
    ((getMol (topology_to_mol st em nm).1 (topology_to_mol st em nm).2).residues).map
      (resContent (topology_to_mol st em nm).1) = em.residues.map engResContent := by
  rw [topology_to_mol_residues_eq]
  refine List.ext_getElem (by simp) ?_
  intro i h1 h2
  simp only [List.getElem_map, List.getElem_range]
  unfold resContent
  rw [topology_to_mol_getRes_at st em nm i (by simpa using h2)]
  rw [engResToResData_content]

/-- Contents of a constructed molecule are the source contents. -/
theorem Molecule_new_contents (st : Store) (comps : List Component)
    (nm : String) (md : List (String × MetaVal)) :
    ((getMol (Molecule.new st comps nm md).1 (Molecule.new st comps nm md).2).residues).map
      (resContent (Molecule.new st comps nm md).1) =
      (flattenComps st comps).map (resContent st) := by
  rw [Molecule_new_residues_eq]
  refine List.ext_getElem (by simp) ?_
  intro i h1 h2
  simp only [List.getElem_map, List.getElem_range]
  rw [show resContent (Molecule.new st comps nm md).1 (st.resS.length + i) =
      resDataContent (getRes (Molecule.new st comps nm md).1 (st.resS.length + i))
    from rfl]
  rw [Molecule_new_getRes_at st comps nm md i (by simpa using h2)]
  rw [copyResData_content]

/-- Atom count of the materialized engine output. -/
theorem topology_to_mol_numAtoms (st : Store) (em : EngMol) (nm : String) :
    numAtoms (topology_to_mol st em nm).1 (topology_to_mol st em nm).2 =
      engNumAtoms em := by
  unfold numAtoms engNumAtoms
  rw [topology_to_mol_residues_eq]
  congr 1
  refine List.ext_getElem (by simp) ?_
  intro i h1 h2
  simp only [List.getElem_map, List.getElem_range]
  rw [topology_to_mol_getRes_at st em nm i (by simpa using h2)]
  unfold engResToResData
  simp

/-- Construction does not move pre-existing molecules. -/
theorem Molecule_new_getMol_lt (st : Store) (comps : List Component)
    (nm : String) (md : List (String × MetaVal)) (m : MolId)
    (hm : m < st.molsS.length) :
    getMol (Molecule.new st comps nm md).1 m = getMol st m := by
  unfold Molecule.new getMol
  exact List.getD_append _ _ _ _ hm

/-- Construction does not move pre-existing residues. -/
theorem Molecule_new_getRes_lt (st : Store) (comps : List Component)
    (nm : String) (md : List (String × MetaVal)) (r : ResId)
    (hr : r < st.resS.length) :
    getRes (Molecule.new st comps nm md).1 r = getRes st r := by
  unfold Molecule.new getRes
  exact List.getD_append _ _ _ _ hr

/-- Counting atoms only needs the molecule record and its residues. -/
theorem numAtoms_preserved (st st' : Store) (m : MolId)
    (hmol : getMol st' m = getMol st m)
    (hres : ∀ r ∈ (getMol st m).residues, getRes st' r = getRes st r) :
    numAtoms st' m = numAtoms st m := by
  unfold numAtoms
  rw [hmol]
  congr 1
  exact List.map_congr_left (fun r hr => by rw [hres r hr])

/-- Contents only need the molecule record and its residues. -/
theorem contents_preserved (st st' : Store) (m : MolId)
    (hmol : getMol st' m = getMol st m)
    (hres : ∀ r ∈ (getMol st m).residues, getRes st' r = getRes st r) :
    ((getMol st' m).residues).map (resContent st') =
      ((getMol st m).residues).map (resContent st) := by
  rw [hmol]
  exact List.map_congr_left (fun r hr => by unfold resContent; rw [hres r hr])

/-- The materialization appends exactly one molecule record. -/
theorem topology_to_mol_molsS_length (st : Store) (em : EngMol) (nm : String) :
    (topology_to_mol st em nm).1.molsS.length = st.molsS.length + 1 := by
  unfold topology_to_mol
  simp

/-- The solvated temp store normalized: molecule table unchanged. -/
theorem solvFixed_molsS (eng : Engine) (st : Store) (mid : MolId) (call : SolvCall) :
    (solvFixed eng st mid call).molsS = (solvTemp eng st mid call).1.molsS :=
  chainnames_to_letter_molsS _ _

/-- The solvated temp store normalized: residue table unchanged. -/
theorem solvFixed_resS (eng : Engine) (st : Store) (mid : MolId) (call : SolvCall) :
    (solvFixed eng st mid call).resS = (solvTemp eng st mid call).1.resS :=
  chainnames_to_letter_resS _ _

/-- The solvation stages extend the original store. -/
theorem solvFixed_extends (eng : Engine) (st : Store) (mid : MolId)
    (call : SolvCall) : storeExtends st (solvFixed eng st mid call) := by
  unfold solvFixed solvTemp
  exact chainnames_to_letter_extends st _ _ (topology_to_mol_extends st _ _)
    (topology_to_mol_fresh st _ _).2.1

/-- The original molecule as seen by the normalized solvated store. -/
theorem solvFixed_getMol_mid (eng : Engine) (st : Store) (mid : MolId)
    (call : SolvCall) (hm : mid < st.molsS.length) :
    getMol (solvFixed eng st mid call) mid = getMol st mid := by
  rw [getMol_congr _ _ _ (solvFixed_molsS eng st mid call)]
  unfold solvTemp
  exact topology_to_mol_getMol_lt st _ _ mid hm

/-- The solvated temp molecule as seen by the normalized store. -/
theorem solvFixed_getMol_temp (eng : Engine) (st : Store) (mid : MolId)
    (call : SolvCall) :
    getMol (solvFixed eng st mid call) (solvTemp eng st mid call).2 =
      getMol (solvTemp eng st mid call).1 (solvTemp eng st mid call).2 :=
  getMol_congr _ _ _ (solvFixed_molsS eng st mid call)

/-- Atom count of the solvated temp molecule in the final store equals
the engine output's atom count. -/
theorem solvNew_temp_numAtoms (eng : Engine) (st : Store) (mid : MolId)
    (call : SolvCall) :
    numAtoms (solvNew eng st mid call).1 (solvTemp eng st mid call).2 =
      engNumAtoms (eng.solvOut st mid call) := by
  have hmlt : (solvTemp eng st mid call).2 < (solvFixed eng st mid call).molsS.length := by
    rw [solvFixed_molsS]
    unfold solvTemp
    rw [topology_to_mol_molsS_length]
    exact Nat.lt_succ_self _
  have hmol := Molecule_new_getMol_lt (solvFixed eng st mid call)
    (solvComps eng st mid call) (solvName eng st mid call) (solvMd eng st mid call)
    (solvTemp eng st mid call).2 hmlt
  have hreslt : ∀ r ∈ (getMol (solvFixed eng st mid call)
      (solvTemp eng st mid call).2).residues,
      r < (solvFixed eng st mid call).resS.length := by
    intro r hr
    rw [solvFixed_getMol_temp] at hr
    rw [solvFixed_resS]
    exact topology_to_mol_residues_lt st _ _ r hr
  have h1 : numAtoms (solvNew eng st mid call).1 (solvTemp eng st mid call).2 =
      numAtoms (solvFixed eng st mid call) (solvTemp eng st mid call).2 := by
    unfold solvNew
    refine numAtoms_preserved _ _ _ hmol ?_
    intro r hr
    exact Molecule_new_getRes_lt _ _ _ _ r (hreslt r hr)
  rw [h1]
  have h2 : numAtoms (solvFixed eng st mid call) (solvTemp eng st mid call).2 =
      numAtoms (solvTemp eng st mid call).1 (solvTemp eng st mid call).2 :=
    numAtoms_congr _ _ _ (solvFixed_molsS eng st mid call)
      (solvFixed_resS eng st mid call)
  rw [h2]
  unfold solvTemp
  exact topology_to_mol_numAtoms st _ _

/-- Residue count of the solvated temp molecule in the final store equals
the engine output's residue count. -/
theorem solvNew_temp_numResidues (eng : Engine) (st : Store) (mid : MolId)
    (call : SolvCall) :
    numResidues (solvNew eng st mid call).1 (solvTemp eng st mid call).2 =
      (eng.solvOut st mid call).residues.length := by
  have hmlt : (solvTemp eng st mid call).2 < (solvFixed eng st mid call).molsS.length := by
    rw [solvFixed_molsS]
    unfold solvTemp
    rw [topology_to_mol_molsS_length]
    exact Nat.lt_succ_self _
  unfold numResidues solvNew
  rw [Molecule_new_getMol_lt (solvFixed eng st mid call)
    (solvComps eng st mid call) (solvName eng st mid call) (solvMd eng st mid call)
    (solvTemp eng st mid call).2 hmlt]
  rw [solvFixed_getMol_temp]
  unfold solvTemp
  have := topology_to_mol_numResidues st (eng.solvOut st mid call)
    ((getMol st mid).mname ++ " with water box")
  unfold numResidues at this
  exact this

/-- C3: a successful `add_water` returns a molecule with exactly the atom
and residue counts of the external tool's solvated output (the trailing
assertions reject anything else); the solute's residues appear first,
with identical content (names, elements, positions) to the original
molecule's residues; and only the solvated output's residues beyond the
solute's residue count are appended after them. -/
theorem add_water_counts_and_graft (eng : Engine) (st : Store) (mid : MolId)
    (minB : Option BoxSpec) (pad : Option ℚ) (conc : ℚ) (neut : Bool)
    (pos neg : String) (nid : MolId) (pio nio : String) (box : ℚ × ℚ × ℚ)
    (hm : mid < st.molsS.length)
    (hw : ∀ r ∈ (getMol st mid).residues, r < st.resS.length)
    (hok : (add_water eng st mid minB pad conc neut pos neg).2.2 = .ok nid)
    (hion : normIonPair pos neg = .ok (pio, nio))
    (hbox : computeBoxsize minB pad (positionsOf st mid) = .ok box) :
    numAtoms (add_water eng st mid minB pad conc neut pos neg).1 nid =
      engNumAtoms (eng.solvOut st mid ⟨box, pio, nio, conc, neut⟩) ∧
    numResidues (add_water eng st mid minB pad conc neut pos neg).1 nid =
      (eng.solvOut st mid ⟨box, pio, nio, conc, neut⟩).residues.length ∧
    (((getMol (add_water eng st mid minB pad conc neut pos neg).1 nid).residues).map
        (resContent (add_water eng st mid minB pad conc neut pos neg).1)).take
        (numResidues st mid) =
      ((getMol st mid).residues).map (resContent st) ∧
    (((getMol (add_water eng st mid minB pad conc neut pos neg).1 nid).residues).map
        (resContent (add_water eng st mid minB pad conc neut pos neg).1)).drop
        (numResidues st mid) =
      ((eng.solvOut st mid ⟨box, pio, nio, conc, neut⟩).residues.drop
        (numResidues st mid)).map engResContent := by
  have hv : ¬ (pad = none ∧ minB = none) := by
    intro hcon
    unfold add_water at hok
    rw [if_pos hcon] at hok
    simp at hok
  unfold add_water at hok ⊢
  rw [if_neg hv, hion, exceptCase_ok, hbox, exceptCase_ok] at hok ⊢
  unfold solvCore at hok ⊢
  dsimp only at hok ⊢
  by_cases h1 : numAtoms (solvNew eng st mid ⟨box, pio, nio, conc, neut⟩).1
      (solvNew eng st mid ⟨box, pio, nio, conc, neut⟩).2 =
      numAtoms (solvNew eng st mid ⟨box, pio, nio, conc, neut⟩).1
      (solvTemp eng st mid ⟨box, pio, nio, conc, neut⟩).2
  · rw [if_pos h1] at hok ⊢
    by_cases h2 : numResidues (solvNew eng st mid ⟨box, pio, nio, conc, neut⟩).1
        (solvNew eng st mid ⟨box, pio, nio, conc, neut⟩).2 =
        numResidues (solvNew eng st mid ⟨box, pio, nio, conc, neut⟩).1
        (solvTemp eng st mid ⟨box, pio, nio, conc, neut⟩).2
    · rw [if_pos h2] at hok ⊢
      simp only [Except.ok.injEq] at hok
      subst hok
      have hcontents : ((getMol (solvNew eng st mid ⟨box, pio, nio, conc, neut⟩).1
          (solvNew eng st mid ⟨box, pio, nio, conc, neut⟩).2).residues).map
          (resContent (solvNew eng st mid ⟨box, pio, nio, conc, neut⟩).1) =
          (flattenComps (solvFixed eng st mid ⟨box, pio, nio, conc, neut⟩)
            (solvComps eng st mid ⟨box, pio, nio, conc, neut⟩)).map
            (resContent (solvFixed eng st mid ⟨box, pio, nio, conc, neut⟩)) := by
        unfold solvNew
        exact Molecule_new_contents _ _ _ _
      have hflat : flattenComps (solvFixed eng st mid ⟨box, pio, nio, conc, neut⟩)
          (solvComps eng st mid ⟨box, pio, nio, conc, neut⟩) =
          (getMol (solvFixed eng st mid ⟨box, pio, nio, conc, neut⟩) mid).residues ++
          ((getMol (solvFixed eng st mid ⟨box, pio, nio, conc, neut⟩)
            (solvTemp eng st mid ⟨box, pio, nio, conc, neut⟩).2).residues.drop
            (numResidues (solvFixed eng st mid ⟨box, pio, nio, conc, neut⟩) mid)) := by
        unfold solvComps
        simp only [flattenComps]
        rw [flattenComps_map_res]
      have hmidF : getMol (solvFixed eng st mid ⟨box, pio, nio, conc, neut⟩) mid =
          getMol st mid := solvFixed_getMol_mid eng st mid _ hm
      have hnF : numResidues (solvFixed eng st mid ⟨box, pio, nio, conc, neut⟩) mid =
          numResidues st mid := by
        unfold numResidues
        rw [hmidF]
      have hcontents2 : ((getMol (solvFixed eng st mid ⟨box, pio, nio, conc, neut⟩)
          mid).residues).map (resContent (solvFixed eng st mid ⟨box, pio, nio, conc, neut⟩)) =
          ((getMol st mid).residues).map (resContent st) := by
        rw [hmidF]
        refine List.map_congr_left (fun r hr => ?_)
        unfold resContent
        rw [getRes_of_extends r (solvFixed_extends eng st mid _) (hw r hr)]
      have htempcont : ((getMol (solvFixed eng st mid ⟨box, pio, nio, conc, neut⟩)
          (solvTemp eng st mid ⟨box, pio, nio, conc, neut⟩).2).residues).map
          (resContent (solvFixed eng st mid ⟨box, pio, nio, conc, neut⟩)) =
          (eng.solvOut st mid ⟨box, pio, nio, conc, neut⟩).residues.map engResContent := by
        rw [solvFixed_getMol_temp]
        rw [List.map_congr_left (fun r hr => resContent_congr _ _ r
          (solvFixed_resS eng st mid ⟨box, pio, nio, conc, neut⟩))]
        unfold solvTemp
        exact topology_to_mol_contents st _ _
      have hlenA : (((getMol (solvFixed eng st mid ⟨box, pio, nio, conc, neut⟩)
          mid).residues).map (resContent (solvFixed eng st mid
          ⟨box, pio, nio, conc, neut⟩))).length = numResidues st mid := by
        rw [List.length_map, ← hnF]
        rfl
      refine ⟨h1.trans (solvNew_temp_numAtoms eng st mid _),
        h2.trans (solvNew_temp_numResidues eng st mid _), ?_, ?_⟩
      · conv_lhs => rw [hcontents, hflat, List.map_append, ← hlenA]
        rw [List.take_left]
        exact hcontents2
      · conv_lhs => rw [hcontents, hflat, List.map_append, ← hlenA]
        rw [List.drop_left]
        rw [List.map_drop]
        rw [htempcont]
        rw [hnF]
        rw [List.map_drop]
    · rw [if_neg h2] at hok
      simp at hok
  · rw [if_neg h1] at hok
    simp at hok

/-- C3 witness: solvating the example molecule adds the two waters of the
engine output; the returned molecule has the output's 8 atoms and 5
residues, the solute's three residues appear first with unchanged
content, and exactly the output's residues beyond the first three are
appended. -/
theorem add_water_counts_and_graft_witness :
    numAtoms (add_water EX exStore 0 (some (.scalar 20)) none 0 true
      "Na+" "Cl-").1 2 = engNumAtoms exSolvEngMol ∧
    numResidues (add_water EX exStore 0 (some (.scalar 20)) none 0 true
      "Na+" "Cl-").1 2 = 5 ∧
    (((getMol (add_water EX exStore 0 (some (.scalar 20)) none 0 true
        "Na+" "Cl-").1 2).residues).map
        (resContent (add_water EX exStore 0 (some (.scalar 20)) none 0 true
          "Na+" "Cl-").1)).take (numResidues exStore 0) =
      ((getMol exStore 0).residues).map (resContent exStore) ∧
    (((getMol (add_water EX exStore 0 (some (.scalar 20)) none 0 true
        "Na+" "Cl-").1 2).residues).map
        (resContent (add_water EX exStore 0 (some (.scalar 20)) none 0 true
          "Na+" "Cl-").1)).drop (numResidues exStore 0) =
      (exSolvEngMol.residues.drop (numResidues exStore 0)).map engResContent :=
  add_water_counts_and_graft EX exStore 0 (some (.scalar 20)) none 0 true
    "Na+" "Cl-" 2 "Na+" "Cl-" (20, 20, 20) (by decide) (by decide) rfl rfl rfl

/-!
### C4: duplicate mutation targets (line 217 assert)
-/

/-- `insertResidues` only ever fails with an assertion error. -/
theorem insertResidues_error_kind (st : Store) (nn : String) :
    ∀ (rs : List ResId) (acc : List (ResId × String)) (e : PyErr),
      insertResidues st acc nn rs = .error e → ∃ msg, e = .assertionError msg := by
  intro rs
  induction rs with
  | nil => intro acc e h; cases h
  | cons x rest ih =>
    intro acc e h
    unfold insertResidues at h
    split at h
    · cases h
      exact ⟨_, rfl⟩
    · exact ih _ _ h

/-- A successful `insertResidues` only appends: existing keys persist. -/
theorem insertResidues_mono (st : Store) (nn : String) :
    ∀ (rs : List ResId) (acc acc2 : List (ResId × String)),
      insertResidues st acc nn rs = .ok acc2 →
      ∀ x, x ∈ acc.map (·.1) → x ∈ acc2.map (·.1) := by
  intro rs
  induction rs with
  | nil =>
    intro acc acc2 h x hx
    cases h
    exact hx
  | cons r rest ih =>
    intro acc acc2 h x hx
    unfold insertResidues at h
    split at h
    · cases h
    · exact ih _ _ h x (by rw [List.map_append]; exact List.mem_append_left _ hx)

/-- A successful `insertResidues` records every inserted residue. -/
theorem insertResidues_covers (st : Store) (nn : String) :
    ∀ (rs : List ResId) (acc acc2 : List (ResId × String)),
      insertResidues st acc nn rs = .ok acc2 →
      ∀ x, x ∈ rs → x ∈ acc2.map (·.1) := by
  intro rs
  induction rs with
  | nil =>
    intro acc acc2 h x hx
    cases hx
  | cons r rest ih =>
    intro acc acc2 h x hx
    unfold insertResidues at h
    split at h
    · cases h
    · rcases List.mem_cons.mp hx with rfl | hx2
      · exact insertResidues_mono st nn rest _ _ h x
          (by rw [List.map_append]; exact List.mem_append_right _ (by simp))
      · exact ih _ _ h x hx2

/-- Inserting a residue that the accumulated map already contains trips
the line-217 assert. -/
theorem insertResidues_dup (st : Store) (nn : String) :
    ∀ (rs : List ResId) (acc : List (ResId × String)) (r : ResId),
      r ∈ rs → r ∈ acc.map (·.1) →
      ∃ msg, insertResidues st acc nn rs = .error (.assertionError msg) := by
  intro rs
  induction rs with
  | nil =>
    intro acc r hr _
    cases hr
  | cons x rest ih =>
    intro acc r hr hacc
    unfold insertResidues
    by_cases hk : hasKey acc x = true
    · rw [if_pos hk]
      exact ⟨_, rfl⟩
    · rw [if_neg hk]
      rcases List.mem_cons.mp hr with rfl | hr2
      · exact absurd ((hasKey_iff acc r).mpr hacc) hk
      · exact ih _ r hr2 (by rw [List.map_append]; exact List.mem_append_left _ hacc)

/-- If some mutation string — all strings up to it resolving successfully —
resolves to a residue already claimed, by the accumulator or by an earlier
string, then the map construction fails with an assertion error. -/
theorem mutStrsGo_dup_error (st : Store) (mid : MolId) :
    ∀ (ss : List String) (acc : List (ResId × String)) (j : Nat) (r : ResId),
      j < ss.length →
      (∀ k, k ≤ j → ∃ v, resolveStr st mid (ss.getD k "") = .ok v) →
      (∀ v, resolveStr st mid (ss.getD j "") = .ok v → r ∈ v.1) →
      (r ∈ acc.map (·.1) ∨
        ∃ i, i < j ∧ ∀ w, resolveStr st mid (ss.getD i "") = .ok w → r ∈ w.1) →
      ∃ msg, mutStrsGo st mid ss acc = .error (.assertionError msg) := by
  intro ss
  induction ss with
  | nil =>
    intro acc j r hjlt _ _ _
    exact absurd hjlt (by simp)
  | cons s rest ih =>
    intro acc j r hjlt hall hjr hcase
    obtain ⟨v0, hv0⟩ := hall 0 (Nat.zero_le j)
    rw [List.getD_cons_zero] at hv0
    unfold mutStrsGo
    rw [hv0]
    simp only [exceptCase_ok]
    cases hins : insertResidues st acc v0.2 v0.1 with
    | error e =>
      simp only [exceptCase_error]
      obtain ⟨msg, rfl⟩ := insertResidues_error_kind st v0.2 v0.1 acc e hins
      exact ⟨msg, rfl⟩
    | ok acc2 =>
      simp only [exceptCase_ok]
      cases j with
      | zero =>
        rcases hcase with hacc | ⟨i, hi0, -⟩
        · have hrv0 : r ∈ v0.1 := hjr v0 (by rw [List.getD_cons_zero]; exact hv0)
          obtain ⟨msg, herr⟩ := insertResidues_dup st v0.2 v0.1 acc r hrv0 hacc
          rw [hins] at herr
          cases herr
        · exact absurd hi0 (by omega)
      | succ j2 =>
        apply ih acc2 j2 r
        · have h1 := hjlt
          simp only [List.length_cons] at h1
          omega
        · intro k hk
          have h1 := hall (k + 1) (Nat.succ_le_succ hk)
          rwa [List.getD_cons_succ] at h1
        · intro v hv
          exact hjr v (by rwa [List.getD_cons_succ])
        · rcases hcase with hacc | ⟨i, hij, hiw⟩
          · exact Or.inl (insertResidues_mono st v0.2 v0.1 acc acc2 hins r hacc)
          · cases i with
            | zero =>
              have hri : r ∈ v0.1 := hiw v0 (by rw [List.getD_cons_zero]; exact hv0)
              exact Or.inl (insertResidues_covers st v0.2 v0.1 acc acc2 hins r hri)
            | succ i2 =>
              refine Or.inr ⟨i2, by omega, ?_⟩
              intro w hw
              exact hiw w (by rwa [List.getD_cons_succ])

/-- C4 counterexample: for the duplicate spec `["A.2S", "A.2N"]` — both
strings resolve to residue ALA2 of the example molecule —
`mutate_residues` does stop with the fatal assertion of line 217, but the
returned trace already records the external fixer-construction call of
line 76, which precedes the string parsing of line 80: the assertion is
not raised before every call into the external engine, contrary to the
claim. -/
theorem mutate_residues_duplicate_counterexample :
    mutate_residues EX exStore 0 (.strs ["A.2S", "A.2N"]) =
      (exStore, [Event.fixerInit],
        .error (.assertionError "Multiple mutations for ALA2")) ∧
    [Event.fixerInit] ≠ ([] : List Event) := ⟨rfl, by decide⟩

/-- C4: when a string-form mutation spec has two entries, at positions
`i < j` with every entry up to `j` resolving successfully, whose resolved
residue sets share a residue, `mutate_residues` stops with a fatal
`AssertionError` (line 217), leaving the store unchanged and performing no
mutation-applying engine call — but only after the external fixer
construction of line 76, which the trace records. -/
theorem mutate_residues_duplicate_mutation (eng : Engine) (st : Store) (mid : MolId)
    (ss : List String) (i j : Nat) (r : ResId)
    (hij : i < j) (hj : j < ss.length)
    (hall : ∀ k, k ≤ j → ∃ v, resolveStr st mid (ss.getD k "") = .ok v)
    (hri : ∀ v, resolveStr st mid (ss.getD i "") = .ok v → r ∈ v.1)
    (hrj : ∀ v, resolveStr st mid (ss.getD j "") = .ok v → r ∈ v.1) :
    ∃ msg, mutate_residues eng st mid (.strs ss) =
      (st, [Event.fixerInit], .error (.assertionError msg)) := by
  obtain ⟨msg, hgo⟩ := mutStrsGo_dup_error st mid ss [] j r hj hall hrj
    (Or.inr ⟨i, hij, hri⟩)
  refine ⟨msg, ?_⟩
  unfold mutate_residues
  rw [show normalizeResidueMap st mid (.strs ss) =
    .error (.assertionError msg) from hgo]
  simp only [exceptCase_error]

/-- C4 witness: positions 0 and 1 of `["A.2S", "A.2N"]` both resolve to
residue 0 (ALA2) of the example store, so the run ends in the assertion
failure with the fixer-construction call already traced. -/
theorem mutate_residues_duplicate_mutation_witness :
    ∃ msg, mutate_residues EX exStore 0 (.strs ["A.2S", "A.2N"]) =
      (exStore, [Event.fixerInit], .error (.assertionError msg)) :=
  mutate_residues_duplicate_mutation EX exStore 0 ["A.2S", "A.2N"] 0 1 0
    (by decide) (by decide)
    (by
      intro k hk
      interval_cases k
      · exact ⟨([0], "SER"), rfl⟩
      · exact ⟨([0], "ASN"), rfl⟩)
    (by
      intro v hv
      rw [show resolveStr exStore 0 (["A.2S", "A.2N"].getD 0 "") =
        .ok ([0], "SER") from rfl] at hv
      cases hv
      decide)
    (by
      intro v hv
      rw [show resolveStr exStore 0 (["A.2S", "A.2N"].getD 1 "") =
        .ok ([0], "ASN") from rfl] at hv
      cases hv
      decide)

/-!
### C7: the mutation-string pattern versus the claimed grammar
-/

/-- The three defining facts of `takeWhile`: its members satisfy the
predicate, it is a prefix with the matching `drop` as remainder, and the
first remaining element (if any) fails the predicate. -/
theorem takeWhile_spec {α : Type} (p : α → Bool) :
    ∀ l : List α,
      (∀ c ∈ l.takeWhile p, p c = true) ∧
      l = l.takeWhile p ++ l.drop (l.takeWhile p).length ∧
      (∀ x, (l.drop (l.takeWhile p).length).head? = some x → p x = false) := by
  intro l
  induction l with
  | nil => exact ⟨by simp, rfl, by simp⟩
  | cons a l ih =>
    by_cases h : p a = true
    · refine ⟨?_, ?_, ?_⟩
      · intro c hc
        rw [List.takeWhile_cons, if_pos h] at hc
        rcases List.mem_cons.mp hc with rfl | hc2
        · exact h
        · exact ih.1 c hc2
      · rw [List.takeWhile_cons, if_pos h]
        simp only [List.length_cons, List.drop_succ_cons, List.cons_append]
        exact congrArg (List.cons a) ih.2.1
      · intro x hx
        rw [List.takeWhile_cons, if_pos h] at hx
        simp only [List.length_cons, List.drop_succ_cons] at hx
        exact ih.2.2 x hx
    · have hb : p a = false := by
        cases hpa : p a
        · rfl
        · exact absurd hpa h
      refine ⟨?_, ?_, ?_⟩
      · intro c hc
        rw [List.takeWhile_cons, if_neg h] at hc
        cases hc
      · rw [List.takeWhile_cons, if_neg h]
        rfl
      · intro x hx
        rw [List.takeWhile_cons, if_neg h] at hx
        simp only [List.length_nil, List.drop_zero, List.head?_cons] at hx
        cases hx
        exact hb

/-- `takeWhile` of a run of satisfying elements followed by a failing head
is exactly that run. -/
theorem takeWhile_append_head {α : Type} (p : α → Bool) :
    ∀ (n q : List α), (∀ c ∈ n, p c = true) →
      (∀ x, q.head? = some x → p x = false) →
      (n ++ q).takeWhile p = n := by
  intro n
  induction n with
  | nil =>
    intro q _ hq
    cases q with
    | nil => rfl
    | cons b q2 =>
      have hb := hq b rfl
      rw [List.nil_append, List.takeWhile_cons, if_neg (by simp [hb])]
  | cons a n2 ih =>
    intro q hn hq
    have ha : p a = true := hn a (by simp)
    rw [List.cons_append, List.takeWhile_cons, if_pos ha,
      ih q (fun c hc => hn c (by simp [hc])) hq]

/-- Soundness of the tail matcher: a successful match decomposes the input
into the three groups (with arbitrary unconsumed remainder), a non-digit
run, a non-empty digit run and a non-empty non-digit run. -/
theorem matchTail_sound (l n d t : List Char) (h : matchTail l = some (n, d, t)) :
    (∃ rest, l = n ++ (d ++ (t ++ rest))) ∧
    (∀ c ∈ n, isDigitChar c = false) ∧ d ≠ [] ∧ (∀ c ∈ d, isDigitChar c = true) ∧
    t ≠ [] ∧ (∀ c ∈ t, isDigitChar c = false) := by
  unfold matchTail at h
  by_cases h3 : (mtG3 l).isEmpty = true
  · rw [if_pos h3] at h; cases h
  · rw [if_neg h3] at h
    by_cases h4 : (mtG4 l).isEmpty = true
    · rw [if_pos h4] at h; cases h
    · rw [if_neg h4] at h
      have hinj := Option.some.inj h
      rw [Prod.mk.injEq, Prod.mk.injEq] at hinj
      obtain ⟨h2, hg3, hg4⟩ := hinj
      subst h2; subst hg3; subst hg4
      have A := takeWhile_spec (fun c => !isDigitChar c) l
      have B := takeWhile_spec isDigitChar (mtR1 l)
      have C := takeWhile_spec (fun c => !isDigitChar c) (mtR2 l)
      have e1 : l = mtG2 l ++ mtR1 l := A.2.1
      have e2 : mtR1 l = mtG3 l ++ mtR2 l := B.2.1
      have e3 : mtR2 l = mtG4 l ++ (mtR2 l).drop (mtG4 l).length := C.2.1
      refine ⟨⟨(mtR2 l).drop (mtG4 l).length, ?_⟩, ?_, ?_, ?_, ?_, ?_⟩
      · conv_lhs => rw [e1, e2, e3]
      · intro c hc
        simpa using A.1 c hc
      · intro hemp
        rw [hemp] at h3
        exact h3 rfl
      · intro c hc
        exact B.1 c hc
      · intro hemp
        rw [hemp] at h4
        exact h4 rfl
      · intro c hc
        simpa using C.1 c hc

/-- Completeness of the tail matcher: an input starting with a non-digit
run, a non-empty digit run and a non-empty non-digit run is matched. -/
theorem matchTail_complete (n d t rest : List Char)
    (hn : ∀ c ∈ n, isDigitChar c = false)
    (hd : d ≠ []) (hdall : ∀ c ∈ d, isDigitChar c = true)
    (ht : t ≠ []) (htall : ∀ c ∈ t, isDigitChar c = false) :
    matchTail (n ++ (d ++ (t ++ rest))) ≠ none := by
  obtain ⟨c, d2, rfl⟩ := List.exists_cons_of_ne_nil hd
  obtain ⟨e, t2, rfl⟩ := List.exists_cons_of_ne_nil ht
  have hg2 : mtG2 (n ++ ((c :: d2) ++ ((e :: t2) ++ rest))) = n := by
    unfold mtG2
    refine takeWhile_append_head _ n _ (fun x hx => by simp [hn x hx]) ?_
    intro x hx
    simp only [List.cons_append, List.head?_cons] at hx
    cases hx
    simp [hdall c (by simp)]
  have hr1 : mtR1 (n ++ ((c :: d2) ++ ((e :: t2) ++ rest))) =
      (c :: d2) ++ ((e :: t2) ++ rest) := by
    unfold mtR1
    rw [hg2]
    exact List.drop_left _ _
  have hg3 : mtG3 (n ++ ((c :: d2) ++ ((e :: t2) ++ rest))) = c :: d2 := by
    unfold mtG3
    rw [hr1]
    refine takeWhile_append_head _ (c :: d2) _ hdall ?_
    intro x hx
    simp only [List.cons_append, List.head?_cons] at hx
    cases hx
    exact htall e (by simp)
  have hr2 : mtR2 (n ++ ((c :: d2) ++ ((e :: t2) ++ rest))) = (e :: t2) ++ rest := by
    unfold mtR2
    rw [hr1, hg3]
    exact List.drop_left _ _
  have hg4 : (mtG4 (n ++ ((c :: d2) ++ ((e :: t2) ++ rest)))).isEmpty = false := by
    unfold mtG4
    rw [hr2]
    simp only [List.cons_append, List.takeWhile_cons]
    rw [if_pos (by simp [htall e (by simp)])]
    rfl
  intro hnone
  unfold matchTail at hnone
  rw [if_neg (by rw [hg3]; simp), if_neg (by rw [hg4]; simp)] at hnone
  cases hnone

/-- `firstSome` fails exactly when every attempt fails. -/
theorem firstSome_eq_none {α β : Type} (f : α → Option β) :
    ∀ xs : List α, firstSome f xs = none ↔ ∀ a ∈ xs, f a = none := by
  intro xs
  induction xs with
  | nil => simp [firstSome]
  | cons a rest ih =>
    unfold firstSome
    cases hfa : f a with
    | none =>
      rw [optionCase_none, ih]
      constructor
      · intro h b hb
        rcases List.mem_cons.mp hb with rfl | hb2
        · exact hfa
        · exact h b hb2
      · intro h b hb
        exact h b (by simp [hb])
    | some b =>
      rw [optionCase_some]
      constructor
      · intro h
        cases h
      · intro h
        have h2 := h a (by simp)
        rw [hfa] at h2
        cases h2
    
/-- A `firstSome` success comes from some element of the list. -/
theorem firstSome_eq_some {α β : Type} (f : α → Option β) (b : β) :
    ∀ xs : List α, firstSome f xs = some b → ∃ a ∈ xs, f a = some b := by
  intro xs
  induction xs with
  | nil =>
    intro h
    cases h
  | cons a rest ih =>
    intro h
    unfold firstSome at h
    cases hfa : f a with
    | none =>
      rw [hfa, optionCase_none] at h
      obtain ⟨x, hx, hfx⟩ := ih h
      exact ⟨x, by simp [hx], hfx⟩
    | some c =>
      rw [hfa, optionCase_some] at h
      cases h
      exact ⟨a, by simp, hfa⟩

/-- Membership in the greedy-group candidate list: a dot position whose
prefix holds no newline. -/
theorem dotCuts_mem (l : List Char) (i : Nat) :
    i ∈ dotCuts l ↔
      i < l.length ∧ l.getD i ' ' = '.' ∧ (l.take i).contains '\n' = false := by
  unfold dotCuts
  rw [List.mem_reverse, List.mem_filter, List.mem_range]
  simp only [Bool.and_eq_true, decide_eq_true_eq, Bool.not_eq_true', and_assoc]

/-- The regex matcher fails exactly when the tail pattern matches neither
after any dot candidate nor at the start. -/
theorem mutReMatch_eq_none (l : List Char) :
    mutReMatch l = none ↔
      (∀ i ∈ dotCuts l, matchTail (l.drop (i + 1)) = none) ∧ matchTail l = none := by
  unfold mutReMatch
  cases hfs : firstSome (dotCandidate l) (dotCuts l) with
  | none =>
    rw [optionCase_none]
    rw [firstSome_eq_none] at hfs
    constructor
    · intro h
      refine ⟨fun i hi => ?_, Option.map_eq_none'.mp h⟩
      exact Option.map_eq_none'.mp (hfs i hi)
    · intro h
      rw [h.2]
      rfl
  | some r =>
    rw [optionCase_some]
    constructor
    · intro h
      cases h
    · intro h
      obtain ⟨i, hi, hfi⟩ := firstSome_eq_some _ _ _ hfs
      unfold dotCandidate at hfi
      rw [h.1 i hi, Option.map_none'] at hfi
      cases hfi

/-- Soundness of the regex matcher: any successful `MUT_RE.match`
decomposes the input according to the prefix grammar. -/
theorem mutReMatch_sound (l : List Char)
    (g : Option (List Char) × List Char × List Char × List Char)
    (h : mutReMatch l = some g) : prefixGrammar l := by
  unfold mutReMatch at h
  cases hfs : firstSome (dotCandidate l) (dotCuts l) with
  | some r =>
    obtain ⟨i, hi, hfi⟩ := firstSome_eq_some _ _ _ hfs
    unfold dotCandidate at hfi
    obtain ⟨⟨n, d, t⟩, hmt, hmap⟩ := Option.map_eq_some'.mp hfi
    obtain ⟨hi_lt, hdot, hnl⟩ := (dotCuts_mem l i).mp hi
    obtain ⟨⟨rest, hdec⟩, hn, hd, hdall, ht, htall⟩ := matchTail_sound _ n d t hmt
    have hgi : l[i]? = some '.' := by
      rw [List.getElem?_eq_getElem hi_lt]
      rw [List.getD_eq_getD_get?, List.get?_eq_getElem?,
        List.getElem?_eq_getElem hi_lt] at hdot
      simpa using hdot
    refine ⟨l.take (i + 1), n, d, t, rest, ?_, ?_, ?_, hd, ?_, ht, ?_⟩
    · conv_lhs => rw [← List.take_append_drop (i + 1) l, hdec]
      simp [List.append_assoc]
    · refine Or.inr ⟨l.take i, ?_, ?_⟩
      · rw [List.take_succ, hgi]
        rfl
      · intro hmem
        rw [← List.elem_iff] at hmem
        rw [show (l.take i).contains '\n' = (l.take i).elem '\n' from rfl] at hnl
        rw [hmem] at hnl
        cases hnl
    · intro c hc
      simp [hn c hc]
    · intro c hc
      exact hdall c hc
    · intro c hc
      simp [htall c hc]
  | none =>
    rw [hfs, optionCase_none] at h
    obtain ⟨⟨n, d, t⟩, hmt, hmap⟩ := Option.map_eq_some'.mp h
    obtain ⟨⟨rest, hdec⟩, hn, hd, hdall, ht, htall⟩ := matchTail_sound l n d t hmt
    refine ⟨[], n, d, t, rest, ?_, Or.inl rfl, ?_, hd, ?_, ht, ?_⟩
    · simpa [List.append_assoc] using hdec
    · intro c hc
      simp [hn c hc]
    · intro c hc
      exact hdall c hc
    · intro c hc
      simp [htall c hc]

/-- Completeness of the regex matcher: any input satisfying the prefix
grammar is matched. -/
theorem mutReMatch_complete (l : List Char) (hpg : prefixGrammar l) :
    mutReMatch l ≠ none := by
  intro hnone
  rw [mutReMatch_eq_none] at hnone
  obtain ⟨p, n, d, t, rest, hdec, hp, hn, hd, hdall, ht, htall⟩ := hpg
  rcases hp with rfl | ⟨q, rfl, hq⟩
  · have hl2 : l = n ++ (d ++ (t ++ rest)) := by
      rw [hdec]
      simp [List.append_assoc]
    have h2 := hnone.2
    rw [hl2] at h2
    exact matchTail_complete n d t rest (fun c hc => by simpa using hn c hc) hd
      (fun c hc => hdall c hc) ht (fun c hc => by simpa using htall c hc) h2
  · have hl2 : l = (q ++ ['.']) ++ (n ++ (d ++ (t ++ rest))) := by
      rw [hdec]
      simp [List.append_assoc]
    have hl3 : l = q ++ ('.' :: (n ++ (d ++ (t ++ rest)))) := by
      rw [hl2]
      simp
    have hi : q.length ∈ dotCuts l := by
      rw [dotCuts_mem]
      refine ⟨?_, ?_, ?_⟩
      · rw [hl3]
        simp only [List.length_append, List.length_cons]
        omega
      · rw [hl3, List.getD_append_right _ _ _ _ (le_refl q.length)]
        simp
      · rw [hl3, List.take_left]
        rw [show q.contains '\n' = q.elem '\n' from rfl]
        rw [← Bool.not_eq_true]
        intro helem
        exact hq (List.elem_iff.mp helem)
    have hdrop : l.drop (q.length + 1) = n ++ (d ++ (t ++ rest)) := by
      rw [hl2, show q.length + 1 = (q ++ ['.']).length from by simp]
      exact List.drop_left _ _
    have h1 := hnone.1 q.length hi
    rw [hdrop] at h1
    exact matchTail_complete n d t rest (fun c hc => by simpa using hn c hc) hd
      (fun c hc => hdall c hc) ht (fun c hc => by simpa using htall c hc) h1

/-- C7 counterexample: the string `"A43M5"` — trailing digit `'5'` after
the target code — is not of the claimed full form
`(chain.)?(sourcecode)?(digits)(targetcode)`, yet `MUT_RE.match` is
anchored only at the start, so the parse succeeds (groups
`(none, "A", "43", "M")`, the trailing character silently ignored) instead
of being rejected with a format error. -/
theorem mutation_string_trailing_counterexample :
    mutReParse "A43M5" = .ok (none, ['A'], ['4', '3'], ['M']) ∧
    fullGrammarCheck "A43M5".data = false := ⟨rfl, rfl⟩

/-- C7: mutation-string parsing raises `ValueError` exactly for the
strings no *prefix* of which matches the pattern
`(.*\.)?([^\d]*)(\d+)([^\d]+)` — not for every string that fails to match
the claimed grammar in full: trailing characters after the target code are
silently ignored (`re.match` anchors only the start). -/
theorem mutation_string_parse_iff (s : String) :
    (∃ msg, mutReParse s = .error (.valueError msg)) ↔ ¬ prefixGrammar s.data := by
  unfold mutReParse
  cases hm : mutReMatch s.data with
  | none =>
    rw [optionCase_none]
    constructor
    · intro _ hpg
      exact mutReMatch_complete s.data hpg hm
    · intro _
      exact ⟨_, rfl⟩
  | some g =>
    rw [optionCase_some]
    constructor
    · rintro ⟨msg, h⟩
      cases h
    · intro hpg
      exact absurd (mutReMatch_sound s.data g hm) hpg

end Moldesign
